import Mathlib

/-!
Shallow embedding of `movie_rec.py`, a user-based collaborative-filtering movie
recommender, together with proofs that settle the specification claims.

Modelling conventions, stated once here:

* Ratings and float arithmetic are modelled exactly, over `ℚ` (and over `ℝ`
  where a square root occurs).  IEEE NaN is modelled by `Option`: `none` is NaN.
* pandas DataFrame cells that are absent (NaN in the CSV) are `Option ℚ` with
  `none` for absent.
* The utility matrix's column labels are the movie ids rendered as decimal
  strings in the CSV header; since `str`/`int` round-trip canonically on them,
  the embedding identifies the labels with the integers `ℤ`.
* A pandas `Series` indexed by the column labels is an association list
  `List (ℤ × ℚ)` in index order; assigning to a label that is not present
  appends a new entry at the end (pandas enlargement), which `setSeries` models.
* Python exceptions are `Except PyErr`; the `IndexError` raised by `.values[0]`
  on an empty selection and the `ValueError` raised by shape mismatches are the
  two that can occur in this code.  Note that an `IndexError` is a `LookupError`
  in Python's exception hierarchy and that its message does not contain the
  looked-up title.
-/

/-- Error values for the Python exceptions this program can raise:
`indexError` models `IndexError` (raised by `.values[0][0]` on an empty
selection and by `.iloc[i]` past the end), `valueError` models `ValueError`
(raised by `pd.Series` on an index/data length mismatch and by `np.dot` on
misaligned shapes). -/
inductive PyErr where
  | indexError : PyErr
  | valueError : PyErr
deriving DecidableEq, Repr

/-- Row of `movies.csv`: a movie id and its display title. -/
structure Movie where
  movieId : ℤ
  title : String
deriving DecidableEq, Repr

/-- The utility matrix as loaded: column labels (movie ids) and the rating rows. -/
structure UtilMatrix where
  columns : List ℤ
  rows : List (List ℚ)
deriving Repr

/-- Constant `MAX_MOVIE_ID = 14076` from `recommend_movies`. -/
def MAX_MOVIE_ID : ℕ := 14076

/-- Constant `MAX_USER_ID = 610` from `recommend_movies`. -/
def MAX_USER_ID : ℕ := 610

/-!  Loading and mean-centering (`load_movielens_data`, `load_user_ratings`). -/

/-- Mean of the present (non-NaN) entries of a row, as computed by
`utility.mean(axis='columns')` (pandas skips NaN).  For a row with no present
entries pandas yields NaN; in the model the division `0 / 0 = 0` in `ℚ` gives
`0`, and `centerRow` sends every cell of such a row to `0` exactly as
`fillna(0)` turns the propagated NaNs into `0`. -/
def rowMean (r : List (Option ℚ)) : ℚ :=
  ((r.filterMap id).sum) / ((r.filterMap id).length)

/-- Centering of one row:
`utility.sub(utility.mean(axis='columns'), axis='rows')` followed by
`utility.fillna(value=0)`.  A present cell `v` becomes `v - rowMean r`; an
absent cell (NaN minus anything is NaN) is filled with `0`. -/
def centerRow (r : List (Option ℚ)) : List ℚ :=
  r.map (fun c => match c with
    | some v => v - rowMean r
    | none => 0)

/-- Core of `load_movielens_data`: mean-center each row of the raw population
matrix and zero-fill the absent cells.  (The function also returns the movie
catalog unchanged; the catalog needs no modelling of its own.) -/
def load_movielens_data (raw : List (List (Option ℚ))) : List (List ℚ) :=
  raw.map centerRow

/-- Mean of the `Rating` column of a ratings table.  pandas yields NaN on an
empty column; the model's `0 / 0 = 0` junk value is never observable because
the subtraction below maps over the (then empty) table. -/
def meanRating (df : List (String × ℚ)) : ℚ :=
  (df.map (fun e => e.2)).sum / (df.map (fun e => e.2)).length

/-- The subtraction `user_ratings['Rating'].sub(mean_rating, axis='rows')`
performed in the `except` branch of `load_user_ratings`. -/
def centerRatings (df : List (String × ℚ)) : List (String × ℚ) :=
  df.map (fun e => (e.1, e.2 - meanRating df))

/-- Model of `load_user_ratings`.  The file system is abstracted as
`Option (List (String × ℚ))`: `none` means `pd.read_csv` raised (missing file,
malformed file, ...), in which case the bare `except:` builds an empty table
and mean-centers it (a no-op on zero rows).  When the read succeeds the stored
table is returned as is; the centering statements are only in the `except`
branch. -/
def load_user_ratings (file : Option (List (String × ℚ))) : List (String × ℚ) :=
  match file with
  | some df => df
  | none => centerRatings []

/-!  Query-vector construction (first loop of `recommend_movies`). -/

/-- Assignment `series[label] = v` on an association-list series: an existing
label is updated in place, a missing label is appended (pandas enlargement). -/
def setSeries (l : List (ℤ × ℚ)) (k : ℤ) (v : ℚ) : List (ℤ × ℚ) :=
  match l with
  | [] => [(k, v)]
  | e :: rest => if e.1 = k then (k, v) :: rest else e :: setSeries rest k v

/-- Resolution of a user-entered title to a movie id:
`movies.loc[movies['title'] == movie, ['movieId']].values[0][0]`, i.e. the id
of the first catalog row with that exact title, if any. -/
def resolvedId (movies : List Movie) (t : String) : Option ℤ :=
  (movies.find? (fun m => m.title = t)).map (fun m => m.movieId)

/-- The first loop of `recommend_movies`: for each title the user rated (in
stored order), look up its movie id in the catalog (`IndexError` via
`.values[0][0]` if the title matches no row — the loop aborts there), look up
the rating as the first `user_ratings` row with that title, and assign it into
the series.  `acc` is `user_ratings_row`, initially all zeros over the utility
matrix's columns. -/
def buildQueryRow (movies : List Movie) (user_ratings : List (String × ℚ)) :
    List String → List (ℤ × ℚ) → Except PyErr (List (ℤ × ℚ))
  | [], acc => .ok acc
  | t :: rest, acc =>
    match movies.find? (fun m => m.title = t) with
    | none => .error .indexError
    | some m =>
      match user_ratings.find? (fun e => e.1 = t) with
      | none => .error .indexError
      | some e => buildQueryRow movies user_ratings rest (setSeries acc m.movieId e.2)

/-!  Similarity (`1 - scipy.spatial.distance.cosine(x, y)`). -/

/-- Dot product of two vectors, `np.dot` on equal-length arrays. -/
def dot (x y : List ℚ) : ℚ :=
  (List.zipWith (fun a b => a * b) x y).sum

/-- Exact model of `sim = 1 - spatial.distance.cosine(x, y)`.  scipy computes
`dist = 1 - uv / sqrt(uu * vv)` and clips it to `[0, 2]`; when `uu * vv = 0`
the division yields NaN (modelled by `none`, no exception).  Otherwise the
value is `uv / sqrt(uu * vv)`, an irrational real in general, represented
exactly by the pair `(uv, uu * vv)`; `simValue` gives its real value, and the
theorems below show the clip never changes it. -/
def simScore (x y : List ℚ) : Option (ℚ × ℚ) :=
  if dot x x * dot y y = 0 then none
  else some (dot x y, dot x x * dot y y)

/-- Real value denoted by a non-NaN similarity score `(d, p)`, namely
`d / sqrt p`. -/
noncomputable def simValue (s : ℚ × ℚ) : ℝ :=
  (s.1 : ℝ) / Real.sqrt (s.2 : ℝ)

/-- Decidable model of the float comparison `a < b` on similarity scores, used
by `sorted(..., key=lambda x: x[1], ...)`.  Any comparison with NaN (`none`)
is false.  For `(d₁, p₁) < (d₂, p₂)` with positive `p`s, the order of
`d / sqrt p` values is decided by signs and cross-multiplied squares;
`scoreLt_iff_simValue` proves this agrees with the real order. -/
def scoreLt : Option (ℚ × ℚ) → Option (ℚ × ℚ) → Bool
  | some (d₁, p₁), some (d₂, p₂) =>
    if d₁ < 0 then decide (0 ≤ d₂) || decide (d₂ ^ 2 * p₁ < d₁ ^ 2 * p₂)
    else decide (0 ≤ d₂) && decide (d₁ ^ 2 * p₂ < d₂ ^ 2 * p₁)
  | _, _ => false

/-- Score values that are not NaN, with the positive denominator invariant
every score produced by `simScore` satisfies. -/
def PosScore (s : Option (ℚ × ℚ)) : Prop :=
  ∃ d p, s = some (d, p) ∧ 0 < p

/-!  Stable descending sort.

Python's `sorted(items, key=lambda x: x[1], reverse=True)` is a stable sort,
descending in the key; on all-NaN keys every comparison is false and timsort
returns the list unchanged.  `sortDescBy` realises both behaviours: each
element is inserted behind every earlier element whose key is not strictly
below its own.  The same function models `means_series.sort_values(ascending=False)`
(pandas does not promise a tie order there; no claim depends on one). -/

/-- Insert `a` in front of the first element whose key is strictly less than
`a`'s key (so equal keys, and NaN keys, keep earlier elements first). -/
def insertDescBy (lt : κ → κ → Bool) (a : α × κ) : List (α × κ) → List (α × κ)
  | [] => [a]
  | b :: bs => if lt b.2 a.2 then a :: b :: bs else b :: insertDescBy lt a bs

/-- Stable descending sort by key, processing elements left to right. -/
def sortDescBy (lt : κ → κ → Bool) (l : List (α × κ)) : List (α × κ) :=
  l.foldl (fun acc a => insertDescBy lt a acc) []

/-!  Aggregation over the neighbor rows (last block of `recommend_movies`). -/

/-- Values of column `j` across the selected neighbor rows
(`closests_users` restricted to one column). -/
def colVals (rows : List (List ℚ)) (j : ℕ) : List ℚ :=
  rows.map (fun r => r.getD j 0)

/-- Column values that survive `replace(0, np.nan)` followed by NaN-skipping:
the non-zero cells of column `j`. -/
def nzVals (rows : List (List ℚ)) (j : ℕ) : List ℚ :=
  (colVals rows j).filter (fun v => decide (v ≠ 0))

/-- Column positions kept by `dropna(axis=1, how='all')`: those with at least
one non-zero cell among the neighbors. -/
def keptCols (cols : List ℤ) (rows : List (List ℚ)) : List ℕ :=
  (List.range cols.length).filter (fun j => decide (nzVals rows j ≠ []))

/-- Mean of the non-zero cells of column `j`
(`closests_users.mean(axis='rows')` after the zero-to-NaN replacement). -/
def colMean (rows : List (List ℚ)) (j : ℕ) : ℚ :=
  (nzVals rows j).sum / (nzVals rows j).length

/-- The kept columns paired with their means and sorted by mean, descending
(`means_series.sort_values(ascending=False)`). -/
def rankedCols (cols : List ℤ) (rows : List (List ℚ)) : List (ℤ × ℚ) :=
  sortDescBy (fun a b => decide (a < b))
    ((keptCols cols rows).map (fun j => (cols.getD j 0, colMean rows j)))

/-- Movie ids with the 10 highest means (`list(means_series.index)[:10]`). -/
def aggregate (cols : List ℤ) (rows : List (List ℚ)) : List ℤ :=
  ((rankedCols cols rows).map (fun p => p.1)).take 10

/-- Final loop of `recommend_movies`: each recommended id is resolved to the
title of the first catalog row with that `movieId`; an id matching no row hits
`.values[0][0]` on an empty selection, an `IndexError`. -/
def resolveTitles (movies : List Movie) : List ℤ → Except PyErr (List String)
  | [] => .ok []
  | id :: rest =>
    match movies.find? (fun m => m.movieId = id) with
    | none => .error .indexError
    | some m =>
      match resolveTitles movies rest with
      | .ok ts => .ok (m.title :: ts)
      | .error e => .error e

/-- Model of `recommend_movies(user_ratings, utility, movies)`.  Faithful to
the source including its hard-coded shape requirements:
`pd.Series([0]*MAX_MOVIE_ID, index=utility.columns)` raises `ValueError`
unless the index also has `MAX_MOVIE_ID` labels; `utility.iloc[i]` for
`i in range(MAX_USER_ID)` raises `IndexError` when the matrix has fewer rows;
`np.dot` raises `ValueError` when a row's length differs from the query
vector's (which happens exactly when a rated movie id is not a column and the
series was enlarged).  `utility.loc[relevant_idx]` is read positionally, which
assumes the CSV's index column is `0..rows-1`.  The returned titles are the
ones the source writes to the page, in order. -/
def recommend_movies (user_ratings : List (String × ℚ)) (utility : UtilMatrix)
    (movies : List Movie) : Except PyErr (List String) :=
  if utility.columns.length ≠ MAX_MOVIE_ID then .error .valueError else
  match buildQueryRow movies user_ratings (user_ratings.map (fun e => e.1))
      (utility.columns.map (fun c => (c, 0))) with
  | .error e => .error e
  | .ok row =>
    if utility.rows.length < MAX_USER_ID then .error .indexError else
    if (List.range MAX_USER_ID).any
        (fun i => decide ((utility.rows.getD i []).length ≠ row.length)) then
      .error .valueError
    else
      let corr := (List.range MAX_USER_ID).map
        (fun i => (i, simScore (utility.rows.getD i []) (row.map (fun e => e.2))))
      let relevant_idx := ((sortDescBy scoreLt corr).take 20).map (fun p => p.1)
      let closest := relevant_idx.map (fun i => utility.rows.getD i [])
      resolveTitles movies (aggregate utility.columns closest)

/-!  Concrete instances used by witnesses and counterexamples. -/

/-- Raw population of the 3-rows-over-4-items test scenario, with `0` cells
read as absent (the CSV's missing markers). -/
def scnRaw : List (List (Option ℚ)) :=
  [[some 5, some 3, none, none],
   [none, some 4, some 5, none],
   [some 1, none, none, some 5]]

/-- Synthetic catalog for the scenario: item id `i` is titled `Mi`. -/
def scnMovies : List Movie := [⟨0, "M0"⟩, ⟨1, "M1"⟩, ⟨2, "M2"⟩, ⟨3, "M3"⟩]

/-- The scenario user's ratings: item 0 rated 5, item 1 rated 3. -/
def scnRatings : List (String × ℚ) := [("M0", 5), ("M1", 3)]

/-- Column labels of the scenario's 4-item utility matrix. -/
def scnCols : List ℤ := [0, 1, 2, 3]

/-- The scenario's centered utility matrix. -/
def scnUtility : UtilMatrix := ⟨scnCols, load_movielens_data scnRaw⟩

/-- Full-size column labels `0..MAX_MOVIE_ID-1`, matching the hard-coded
`pd.Series` length so that `recommend_movies` can run end to end. -/
def demoCols : List ℤ := (List.range MAX_MOVIE_ID).map (fun i => Int.ofNat i)

/-- A full-width centered row: item 0 at `1`, item 1 at `-1`, the rest unrated. -/
def demoRow : List ℚ := 1 :: -1 :: List.replicate (MAX_MOVIE_ID - 2) 0

/-- A full-size utility matrix whose `MAX_USER_ID` rows all equal `demoRow`. -/
def demoMatrix : UtilMatrix := ⟨demoCols, List.replicate MAX_USER_ID demoRow⟩

/-- A catalog resolving the two rated columns of `demoMatrix`. -/
def demoMovies : List Movie := [⟨0, "A"⟩, ⟨1, "B"⟩]

/-!  Lemmas: the stable descending sort. -/

theorem insertDescBy_perm (lt : κ → κ → Bool) (a : α × κ) (l : List (α × κ)) :
    (insertDescBy lt a l).Perm (a :: l) := by
  induction l with
  | nil => simp [insertDescBy]
  | cons b bs ih =>
    by_cases h : lt b.2 a.2 = true
    · simp [insertDescBy, h]
    · simp only [insertDescBy, h, if_false, Bool.false_eq_true]
      exact (ih.cons b).trans (List.Perm.swap a b bs)

theorem foldl_insertDescBy_perm (lt : κ → κ → Bool) (l acc : List (α × κ)) :
    (l.foldl (fun acc a => insertDescBy lt a acc) acc).Perm (acc ++ l) := by
  induction l generalizing acc with
  | nil => simp
  | cons a as ih =>
    simp only [List.foldl_cons]
    refine (ih _).trans ?_
    refine (((insertDescBy_perm lt a acc).append_right as).trans ?_)
    exact List.perm_middle.symm

theorem sortDescBy_perm (lt : κ → κ → Bool) (l : List (α × κ)) :
    (sortDescBy lt l).Perm l := by
  simpa [sortDescBy] using foldl_insertDescBy_perm lt l []

theorem insertDescBy_eq_append (lt : κ → κ → Bool) (a : α × κ) (l : List (α × κ))
    (h : ∀ b ∈ l, lt b.2 a.2 = false) :
    insertDescBy lt a l = l ++ [a] := by
  induction l with
  | nil => simp [insertDescBy]
  | cons b bs ih =>
    have hb := h b (List.mem_cons_self b bs)
    simp only [insertDescBy, hb, Bool.false_eq_true, if_false, List.cons_append]
    exact congrArg _ (ih (fun c hc => h c (List.mem_cons_of_mem b hc)))

theorem foldl_insertDescBy_eq_append (lt : κ → κ → Bool) (l : List (α × κ)) :
    ∀ acc : List (α × κ),
      (∀ b ∈ acc, ∀ a ∈ l, lt b.2 a.2 = false) →
      (∀ p ∈ l, ∀ q ∈ l, lt p.2 q.2 = false) →
      l.foldl (fun acc a => insertDescBy lt a acc) acc = acc ++ l := by
  induction l with
  | nil => intro acc _ _; simp
  | cons a as ih =>
    intro acc hacc hl
    simp only [List.foldl_cons]
    have h1 : insertDescBy lt a acc = acc ++ [a] :=
      insertDescBy_eq_append lt a acc
        (fun b hb => hacc b hb a (List.mem_cons_self a as))
    rw [h1, ih (acc ++ [a]) ?_ ?_]
    · simp
    · intro b hb c hc
      rcases List.mem_append.mp hb with hb' | hb'
      · exact hacc b hb' c (List.mem_cons_of_mem a hc)
      · have : b = a := by simpa using hb'
        subst this
        exact hl b (List.mem_cons_self b as) c (List.mem_cons_of_mem b hc)
    · intro p hp q hq
      exact hl p (List.mem_cons_of_mem a hp) q (List.mem_cons_of_mem a hq)

theorem sortDescBy_eq_self (lt : κ → κ → Bool) (l : List (α × κ))
    (h : ∀ p ∈ l, ∀ q ∈ l, lt p.2 q.2 = false) :
    sortDescBy lt l = l := by
  simpa [sortDescBy] using foldl_insertDescBy_eq_append lt l [] (by simp) h

/-!  Lemmas: dot products and similarity scores. -/

theorem dot_nil_left (y : List ℚ) : dot [] y = 0 := rfl

theorem dot_cons (a b : ℚ) (x y : List ℚ) :
    dot (a :: x) (b :: y) = a * b + dot x y := by
  simp [dot]

theorem dot_self_nonneg (x : List ℚ) : 0 ≤ dot x x := by
  induction x with
  | nil => simp [dot]
  | cons a xs ih => rw [dot_cons]; nlinarith [sq_nonneg a]

theorem dot_sq_le (x y : List ℚ) : (dot x y) ^ 2 ≤ dot x x * dot y y := by
  induction x generalizing y with
  | nil => simp [dot]
  | cons a xs ih =>
    cases y with
    | nil => simp [dot]
    | cons b ys =>
      have h := ih ys
      have hx := dot_self_nonneg xs
      have hy := dot_self_nonneg ys
      rw [dot_cons, dot_cons, dot_cons]
      rcases eq_or_lt_of_le hx with hx0 | hx0
      · have hxy : dot xs ys = 0 := by nlinarith [sq_nonneg (dot xs ys)]
        rw [hxy, ← hx0]
        nlinarith [mul_nonneg (mul_self_nonneg a) hy]
      · nlinarith [sq_nonneg (a * dot xs ys - b * dot xs xs),
          mul_nonneg (sq_nonneg a) (sub_nonneg.mpr h),
          mul_nonneg (le_of_lt hx0) (sub_nonneg.mpr h)]

theorem dot_right_zero (x : List ℚ) : ∀ y : List ℚ, (∀ v ∈ y, v = 0) → dot x y = 0 := by
  induction x with
  | nil => intro y _; simp [dot]
  | cons a xs ih =>
    intro y hy
    cases y with
    | nil => simp [dot]
    | cons b ys =>
      rw [dot_cons, hy b (List.mem_cons_self b ys),
        ih ys (fun v hv => hy v (List.mem_cons_of_mem b hv))]
      ring

theorem simScore_of_ne (x y : List ℚ) (h : dot x x * dot y y ≠ 0) :
    simScore x y = some (dot x y, dot x x * dot y y) := by
  simp [simScore, h]

theorem simScore_pos_snd (x y : List ℚ) (s : ℚ × ℚ) (h : simScore x y = some s) :
    0 < s.2 := by
  by_cases h0 : dot x x * dot y y = 0
  · simp [simScore, h0] at h
  · rw [simScore_of_ne x y h0] at h
    cases h
    exact lt_of_le_of_ne (mul_nonneg (dot_self_nonneg x) (dot_self_nonneg y)) (Ne.symm h0)

theorem scoreLt_iff_simValue (d₁ p₁ d₂ p₂ : ℚ) (h₁ : 0 < p₁) (h₂ : 0 < p₂) :
    scoreLt (some (d₁, p₁)) (some (d₂, p₂)) = true ↔
      simValue (d₁, p₁) < simValue (d₂, p₂) := by
  have s₁pos : (0:ℝ) < Real.sqrt (p₁:ℝ) := Real.sqrt_pos.mpr (by exact_mod_cast h₁)
  have s₂pos : (0:ℝ) < Real.sqrt (p₂:ℝ) := Real.sqrt_pos.mpr (by exact_mod_cast h₂)
  have hsq₁ : Real.sqrt (p₁:ℝ) * Real.sqrt (p₁:ℝ) = (p₁:ℝ) :=
    Real.mul_self_sqrt (by positivity)
  have hsq₂ : Real.sqrt (p₂:ℝ) * Real.sqrt (p₂:ℝ) = (p₂:ℝ) :=
    Real.mul_self_sqrt (by positivity)
  have hval : simValue (d₁, p₁) < simValue (d₂, p₂) ↔
      (d₁:ℝ) * Real.sqrt (p₂:ℝ) < (d₂:ℝ) * Real.sqrt (p₁:ℝ) := by
    unfold simValue
    exact div_lt_div_iff₀ s₁pos s₂pos
  rw [hval]
  by_cases hd₁ : d₁ < 0
  · have hd₁' : (d₁:ℝ) < 0 := by exact_mod_cast hd₁
    by_cases hd₂ : 0 ≤ d₂
    · have hd₂' : (0:ℝ) ≤ (d₂:ℝ) := by exact_mod_cast hd₂
      simp only [scoreLt, if_pos hd₁, Bool.or_eq_true, decide_eq_true_eq]
      constructor
      · intro _
        nlinarith
      · intro _
        exact Or.inl hd₂
    · push_neg at hd₂
      have hd₂' : (d₂:ℝ) < 0 := by exact_mod_cast hd₂
      simp only [scoreLt, if_pos hd₁, Bool.or_eq_true, decide_eq_true_eq]
      have hcast : (d₂ ^ 2 * p₁ < d₁ ^ 2 * p₂) ↔
          ((d₂:ℝ) * Real.sqrt (p₁:ℝ)) * ((d₂:ℝ) * Real.sqrt (p₁:ℝ)) <
          ((d₁:ℝ) * Real.sqrt (p₂:ℝ)) * ((d₁:ℝ) * Real.sqrt (p₂:ℝ)) := by
        rw [show ((d₂:ℝ) * Real.sqrt (p₁:ℝ)) * ((d₂:ℝ) * Real.sqrt (p₁:ℝ)) =
            (d₂:ℝ) ^ 2 * (Real.sqrt (p₁:ℝ) * Real.sqrt (p₁:ℝ)) by ring,
          show ((d₁:ℝ) * Real.sqrt (p₂:ℝ)) * ((d₁:ℝ) * Real.sqrt (p₂:ℝ)) =
            (d₁:ℝ) ^ 2 * (Real.sqrt (p₂:ℝ) * Real.sqrt (p₂:ℝ)) by ring,
          hsq₁, hsq₂]
        constructor
        · intro h; exact_mod_cast h
        · intro h; exact_mod_cast h
      constructor
      · rintro (h | h)
        · exact absurd h (not_le.mpr hd₂)
        · have h' := hcast.mp h
          nlinarith [mul_neg_of_neg_of_pos hd₁' s₂pos, mul_neg_of_neg_of_pos hd₂' s₁pos]
      · intro h
        refine Or.inr (hcast.mpr ?_)
        nlinarith [mul_neg_of_neg_of_pos hd₁' s₂pos, mul_neg_of_neg_of_pos hd₂' s₁pos]
  · push_neg at hd₁
    have hd₁' : (0:ℝ) ≤ (d₁:ℝ) := by exact_mod_cast hd₁
    by_cases hd₂ : 0 ≤ d₂
    · have hd₂' : (0:ℝ) ≤ (d₂:ℝ) := by exact_mod_cast hd₂
      simp only [scoreLt, if_neg (not_lt.mpr hd₁), Bool.and_eq_true, decide_eq_true_eq]
      have hcast : (d₁ ^ 2 * p₂ < d₂ ^ 2 * p₁) ↔
          ((d₁:ℝ) * Real.sqrt (p₂:ℝ)) * ((d₁:ℝ) * Real.sqrt (p₂:ℝ)) <
          ((d₂:ℝ) * Real.sqrt (p₁:ℝ)) * ((d₂:ℝ) * Real.sqrt (p₁:ℝ)) := by
        rw [show ((d₁:ℝ) * Real.sqrt (p₂:ℝ)) * ((d₁:ℝ) * Real.sqrt (p₂:ℝ)) =
            (d₁:ℝ) ^ 2 * (Real.sqrt (p₂:ℝ) * Real.sqrt (p₂:ℝ)) by ring,
          show ((d₂:ℝ) * Real.sqrt (p₁:ℝ)) * ((d₂:ℝ) * Real.sqrt (p₁:ℝ)) =
            (d₂:ℝ) ^ 2 * (Real.sqrt (p₁:ℝ) * Real.sqrt (p₁:ℝ)) by ring,
          hsq₁, hsq₂]
        constructor
        · intro h; exact_mod_cast h
        · intro h; exact_mod_cast h
      constructor
      · rintro ⟨_, h⟩
        have h' := hcast.mp h
        have ha : (0:ℝ) ≤ (d₁:ℝ) * Real.sqrt (p₂:ℝ) := mul_nonneg hd₁' s₂pos.le
        have hb : (0:ℝ) ≤ (d₂:ℝ) * Real.sqrt (p₁:ℝ) := mul_nonneg hd₂' s₁pos.le
        exact (mul_self_lt_mul_self_iff ha hb).mpr h'
      · intro h
        have ha : (0:ℝ) ≤ (d₁:ℝ) * Real.sqrt (p₂:ℝ) := mul_nonneg hd₁' s₂pos.le
        have hb : (0:ℝ) ≤ (d₂:ℝ) * Real.sqrt (p₁:ℝ) := mul_nonneg hd₂' s₁pos.le
        exact ⟨hd₂, hcast.mpr ((mul_self_lt_mul_self_iff ha hb).mp h)⟩
    · push_neg at hd₂
      have hd₂' : (d₂:ℝ) < 0 := by exact_mod_cast hd₂
      simp only [scoreLt, if_neg (not_lt.mpr hd₁), Bool.and_eq_true, decide_eq_true_eq]
      constructor
      · rintro ⟨h, _⟩
        exact absurd h (not_le.mpr hd₂)
      · intro h
        exfalso
        nlinarith [mul_nonneg hd₁' s₂pos.le, mul_neg_of_neg_of_pos hd₂' s₁pos]

/-!  Lemmas: ordering invariants of the sort, relative to a key invariant P. -/

theorem insertDescBy_pairwise_desc (lt : κ → κ → Bool) (P : κ → Prop)
    (hasym : ∀ x y, P x → P y → lt x y = true → lt y x = false)
    (htrans : ∀ x y z, P x → P y → P z → lt y x = true → lt y z = false → lt x z = false)
    (a : α × κ) (l : List (α × κ)) (hPa : P a.2) (hPl : ∀ b ∈ l, P b.2)
    (hl : l.Pairwise (fun p q => lt p.2 q.2 = false)) :
    (insertDescBy lt a l).Pairwise (fun p q => lt p.2 q.2 = false) := by
  induction l with
  | nil => simp [insertDescBy]
  | cons b bs ih =>
    rcases List.pairwise_cons.mp hl with ⟨hb, hbs⟩
    have hPb : P b.2 := hPl b (List.mem_cons_self b bs)
    have hPbs : ∀ c ∈ bs, P c.2 := fun c hc => hPl c (List.mem_cons_of_mem b hc)
    by_cases h : lt b.2 a.2 = true
    · simp only [insertDescBy, h, if_true]
      refine List.pairwise_cons.mpr ⟨?_, hl⟩
      intro c hc
      rcases List.mem_cons.mp hc with h1 | hc'
      · subst h1
        exact hasym _ _ hPb hPa h
      · exact htrans a.2 b.2 c.2 hPa hPb (hPbs c hc') h (hb c hc')
    · simp only [insertDescBy, h, if_false, Bool.false_eq_true]
      refine List.pairwise_cons.mpr ⟨?_, ih hPbs hbs⟩
      intro c hc
      rcases List.mem_cons.mp
          ((insertDescBy_perm lt a bs).mem_iff.mp hc) with h1 | hc'
      · subst h1
        simpa using h
      · exact hb c hc'

theorem foldl_insertDescBy_pairwise_desc (lt : κ → κ → Bool) (P : κ → Prop)
    (hasym : ∀ x y, P x → P y → lt x y = true → lt y x = false)
    (htrans : ∀ x y z, P x → P y → P z → lt y x = true → lt y z = false → lt x z = false)
    (l : List (α × κ)) :
    ∀ acc : List (α × κ), (∀ a ∈ l, P a.2) → (∀ b ∈ acc, P b.2) →
      acc.Pairwise (fun p q => lt p.2 q.2 = false) →
      (l.foldl (fun acc a => insertDescBy lt a acc) acc).Pairwise
        (fun p q => lt p.2 q.2 = false) := by
  induction l with
  | nil => intro acc _ hPacc hacc; simpa using hacc
  | cons a as ih =>
    intro acc hPl hPacc hacc
    simp only [List.foldl_cons]
    have hPa : P a.2 := hPl a (List.mem_cons_self a as)
    refine ih _ (fun c hc => hPl c (List.mem_cons_of_mem a hc)) ?_ ?_
    · intro b hb
      rcases List.mem_cons.mp ((insertDescBy_perm lt a acc).mem_iff.mp hb) with h1 | hb'
      · subst h1
        exact hPa
      · exact hPacc b hb'
    · exact insertDescBy_pairwise_desc lt P hasym htrans a acc hPa hPacc hacc

theorem sortDescBy_pairwise_desc (lt : κ → κ → Bool) (P : κ → Prop)
    (hasym : ∀ x y, P x → P y → lt x y = true → lt y x = false)
    (htrans : ∀ x y z, P x → P y → P z → lt y x = true → lt y z = false → lt x z = false)
    (l : List (α × κ)) (hPl : ∀ a ∈ l, P a.2) :
    (sortDescBy lt l).Pairwise (fun p q => lt p.2 q.2 = false) :=
  foldl_insertDescBy_pairwise_desc lt P hasym htrans l [] hPl (by simp) (by simp)

theorem insertDescBy_pairwise_stable (lt : κ → κ → Bool) (P : κ → Prop)
    (hlower : ∀ x y z, P x → P y → P z → lt y x = true → lt y z = false → lt z x = true)
    (a : ℕ × κ) (l : List (ℕ × κ)) (hPa : P a.2) (hPl : ∀ b ∈ l, P b.2)
    (hidx : ∀ b ∈ l, b.1 < a.1)
    (hl₁ : l.Pairwise (fun p q => lt p.2 q.2 = false))
    (hl₂ : l.Pairwise (fun p q => lt q.2 p.2 = true ∨ p.1 < q.1)) :
    (insertDescBy lt a l).Pairwise (fun p q => lt q.2 p.2 = true ∨ p.1 < q.1) := by
  induction l with
  | nil => simp [insertDescBy]
  | cons b bs ih =>
    rcases List.pairwise_cons.mp hl₁ with ⟨hb₁, hbs₁⟩
    rcases List.pairwise_cons.mp hl₂ with ⟨hb₂, hbs₂⟩
    have hPb : P b.2 := hPl b (List.mem_cons_self b bs)
    have hPbs : ∀ c ∈ bs, P c.2 := fun c hc => hPl c (List.mem_cons_of_mem b hc)
    by_cases h : lt b.2 a.2 = true
    · simp only [insertDescBy, h, if_true]
      refine List.pairwise_cons.mpr ⟨?_, hl₂⟩
      intro c hc
      rcases List.mem_cons.mp hc with h1 | hc'
      · subst h1
        exact Or.inl h
      · exact Or.inl (hlower a.2 b.2 c.2 hPa hPb (hPbs c hc') h (hb₁ c hc'))
    · simp only [insertDescBy, h, if_false, Bool.false_eq_true]
      refine List.pairwise_cons.mpr
        ⟨?_, ih hPbs (fun c hc => hidx c (List.mem_cons_of_mem b hc)) hbs₁ hbs₂⟩
      intro c hc
      rcases List.mem_cons.mp
          ((insertDescBy_perm lt a bs).mem_iff.mp hc) with h1 | hc'
      · subst h1
        exact Or.inr (hidx b (List.mem_cons_self b bs))
      · exact hb₂ c hc'

theorem foldl_insertDescBy_pairwise_stable (lt : κ → κ → Bool) (P : κ → Prop)
    (hasym : ∀ x y, P x → P y → lt x y = true → lt y x = false)
    (htrans : ∀ x y z, P x → P y → P z → lt y x = true → lt y z = false → lt x z = false)
    (hlower : ∀ x y z, P x → P y → P z → lt y x = true → lt y z = false → lt z x = true)
    (l : List (ℕ × κ)) :
    ∀ acc : List (ℕ × κ), (∀ a ∈ l, P a.2) → (∀ b ∈ acc, P b.2) →
      (∀ b ∈ acc, ∀ a ∈ l, b.1 < a.1) →
      l.Pairwise (fun p q => p.1 < q.1) →
      acc.Pairwise (fun p q => lt p.2 q.2 = false) →
      acc.Pairwise (fun p q => lt q.2 p.2 = true ∨ p.1 < q.1) →
      (l.foldl (fun acc a => insertDescBy lt a acc) acc).Pairwise
        (fun p q => lt q.2 p.2 = true ∨ p.1 < q.1) := by
  induction l with
  | nil => intro acc _ _ _ _ _ hacc₂; simpa using hacc₂
  | cons a as ih =>
    intro acc hPl hPacc hidx hmono hacc₁ hacc₂
    simp only [List.foldl_cons]
    have hPa : P a.2 := hPl a (List.mem_cons_self a as)
    rcases List.pairwise_cons.mp hmono with ⟨hmono_a, hmono_as⟩
    have hmem : ∀ b ∈ insertDescBy lt a acc, b = a ∨ b ∈ acc := fun b hb =>
      List.mem_cons.mp ((insertDescBy_perm lt a acc).mem_iff.mp hb)
    refine ih _ (fun c hc => hPl c (List.mem_cons_of_mem a hc)) ?_ ?_ hmono_as ?_ ?_
    · intro b hb
      rcases hmem b hb with h1 | hb'
      · subst h1; exact hPa
      · exact hPacc b hb'
    · intro b hb c hc
      rcases hmem b hb with h1 | hb'
      · subst h1; exact hmono_a c hc
      · exact hidx b hb' c (List.mem_cons_of_mem a hc)
    · exact insertDescBy_pairwise_desc lt P hasym htrans a acc hPa hPacc hacc₁
    · exact insertDescBy_pairwise_stable lt P hlower a acc hPa hPacc
        (fun b hb => hidx b hb a (List.mem_cons_self a as)) hacc₁ hacc₂

theorem sortDescBy_pairwise_stable (lt : κ → κ → Bool) (P : κ → Prop)
    (hasym : ∀ x y, P x → P y → lt x y = true → lt y x = false)
    (htrans : ∀ x y z, P x → P y → P z → lt y x = true → lt y z = false → lt x z = false)
    (hlower : ∀ x y z, P x → P y → P z → lt y x = true → lt y z = false → lt z x = true)
    (l : List (ℕ × κ)) (hPl : ∀ a ∈ l, P a.2)
    (hmono : l.Pairwise (fun p q => p.1 < q.1)) :
    (sortDescBy lt l).Pairwise (fun p q => lt q.2 p.2 = true ∨ p.1 < q.1) :=
  foldl_insertDescBy_pairwise_stable lt P hasym htrans hlower l [] hPl
    (by simp) (by simp) hmono (by simp) (by simp)

/-!  Lemmas: the order hypotheses hold for scoreLt on non-NaN scores and for
the plain rational order. -/

theorem scoreLt_false_iff (d₁ p₁ d₂ p₂ : ℚ) (h₁ : 0 < p₁) (h₂ : 0 < p₂) :
    scoreLt (some (d₁, p₁)) (some (d₂, p₂)) = false ↔
      ¬ simValue (d₁, p₁) < simValue (d₂, p₂) := by
  rw [← scoreLt_iff_simValue d₁ p₁ d₂ p₂ h₁ h₂, Bool.eq_false_iff]

theorem scoreLt_asymm_pos (x y : Option (ℚ × ℚ)) (hx : PosScore x) (hy : PosScore y)
    (h : scoreLt x y = true) : scoreLt y x = false := by
  obtain ⟨d₁, p₁, rfl, h₁⟩ := hx
  obtain ⟨d₂, p₂, rfl, h₂⟩ := hy
  have hv := (scoreLt_iff_simValue d₁ p₁ d₂ p₂ h₁ h₂).mp h
  exact (scoreLt_false_iff d₂ p₂ d₁ p₁ h₂ h₁).mpr (by linarith)

theorem scoreLt_trans_pos (x y z : Option (ℚ × ℚ)) (hx : PosScore x) (hy : PosScore y)
    (hz : PosScore z) (h : scoreLt y x = true) (h' : scoreLt y z = false) :
    scoreLt x z = false := by
  obtain ⟨d₁, p₁, rfl, h₁⟩ := hx
  obtain ⟨d₂, p₂, rfl, h₂⟩ := hy
  obtain ⟨d₃, p₃, rfl, h₃⟩ := hz
  have hv := (scoreLt_iff_simValue d₂ p₂ d₁ p₁ h₂ h₁).mp h
  have hv' := (scoreLt_false_iff d₂ p₂ d₃ p₃ h₂ h₃).mp h'
  exact (scoreLt_false_iff d₁ p₁ d₃ p₃ h₁ h₃).mpr (by linarith)

theorem scoreLt_lower_pos (x y z : Option (ℚ × ℚ)) (hx : PosScore x) (hy : PosScore y)
    (hz : PosScore z) (h : scoreLt y x = true) (h' : scoreLt y z = false) :
    scoreLt z x = true := by
  obtain ⟨d₁, p₁, rfl, h₁⟩ := hx
  obtain ⟨d₂, p₂, rfl, h₂⟩ := hy
  obtain ⟨d₃, p₃, rfl, h₃⟩ := hz
  have hv := (scoreLt_iff_simValue d₂ p₂ d₁ p₁ h₂ h₁).mp h
  have hv' := (scoreLt_false_iff d₂ p₂ d₃ p₃ h₂ h₃).mp h'
  exact (scoreLt_iff_simValue d₃ p₃ d₁ p₁ h₃ h₁).mpr (by linarith)

theorem ratLt_asymm (x y : ℚ) (h : decide (x < y) = true) : decide (y < x) = false := by
  simp only [decide_eq_true_eq] at h
  simp only [decide_eq_false_iff_not]
  linarith

theorem ratLt_trans (x y z : ℚ) (h : decide (y < x) = true) (h' : decide (y < z) = false) :
    decide (x < z) = false := by
  simp only [decide_eq_true_eq] at h
  simp only [decide_eq_false_iff_not] at h' ⊢
  intro hc
  exact h' (lt_trans (by linarith) hc)

/-!  Lemmas: mean-centering. -/

theorem sum_map_center (m : ℚ) (r : List (Option ℚ)) :
    (r.map (fun c => match c with | some v => v - m | none => 0)).sum =
      (r.filterMap id).sum - (r.filterMap id).length * m := by
  induction r with
  | nil => simp
  | cons c rest ih =>
    cases c with
    | none => simpa using ih
    | some v =>
      have hfm : List.filterMap id (some v :: rest) = v :: List.filterMap id rest := rfl
      simp only [List.map_cons, List.sum_cons, hfm, List.length_cons, ih]
      push_cast
      ring

theorem centerRow_sum (r : List (Option ℚ)) : (centerRow r).sum = 0 := by
  unfold centerRow rowMean
  rw [sum_map_center]
  by_cases h : (r.filterMap id).length = 0
  · rw [List.length_eq_zero] at h
    simp [h]
  · have hn : ((r.filterMap id).length : ℚ) ≠ 0 := by exact_mod_cast h
    field_simp

theorem centerRow_all_absent (r : List (Option ℚ)) (h : r.filterMap id = []) :
    centerRow r = List.replicate r.length 0 := by
  have hnone : ∀ c ∈ r, c = none := by
    intro c hc
    have := List.filterMap_eq_nil_iff.mp h c hc
    simpa using this
  refine List.eq_replicate_iff.mpr ⟨by simp [centerRow], ?_⟩
  intro b hb
  rcases List.mem_map.mp hb with ⟨c, hc, hcb⟩
  rw [hnone c hc] at hcb
  exact hcb.symm

/-!  Claim theorems: C5, C10, C4, C3. -/

/-- Claim C5: the utility-matrix builder centers each row by subtracting the
mean of the row's present ratings from every present rating and sets every
absent cell to 0; consequently the whole centered row (hence the set of
originally-present values, the absent ones being 0) sums to zero, and a row
with zero present ratings becomes an all-zero row with no division error. -/
theorem C5_utility_matrix_centering (raw : List (List (Option ℚ)))
    (row : List (Option ℚ)) (h : row ∈ raw) :
    centerRow row ∈ load_movielens_data raw ∧
    (∀ j (hj : j < row.length), ∀ v : ℚ, row.get ⟨j, hj⟩ = some v →
      (centerRow row).getD j 0 = v - rowMean row) ∧
    (∀ j (hj : j < row.length), row.get ⟨j, hj⟩ = none →
      (centerRow row).getD j 0 = 0) ∧
    (centerRow row).sum = 0 ∧
    (row.filterMap id = [] → centerRow row = List.replicate row.length 0) := by
  refine ⟨List.mem_map_of_mem centerRow h, ?_, ?_, centerRow_sum row, centerRow_all_absent row⟩
  · intro j hj v hv
    have hj' : j < (centerRow row).length := by simpa [centerRow] using hj
    rw [List.getD_eq_getElem _ _ hj']
    simp only [centerRow, List.getElem_map]
    rw [show row[j] = row.get ⟨j, hj⟩ from rfl, hv]
  · intro j hj hv
    have hj' : j < (centerRow row).length := by simpa [centerRow] using hj
    rw [List.getD_eq_getElem _ _ hj']
    simp only [centerRow, List.getElem_map]
    rw [show row[j] = row.get ⟨j, hj⟩ from rfl, hv]

/-- Witness for C5 on the scenario matrix: its first row [5, 3, NaN, NaN]
centers to [1, -1, 0, 0]. -/
theorem C5_utility_matrix_centering_witness :
    [some 5, some 3, none, none] ∈ scnRaw ∧
    (centerRow [some 5, some 3, none, none] ∈ load_movielens_data scnRaw ∧
    (∀ j (hj : j < [some (5:ℚ), some 3, none, none].length), ∀ v : ℚ,
      [some (5:ℚ), some 3, none, none].get ⟨j, hj⟩ = some v →
      (centerRow [some 5, some 3, none, none]).getD j 0 =
        v - rowMean [some 5, some 3, none, none]) ∧
    (∀ j (hj : j < [some (5:ℚ), some 3, none, none].length),
      [some (5:ℚ), some 3, none, none].get ⟨j, hj⟩ = none →
      (centerRow [some 5, some 3, none, none]).getD j 0 = 0) ∧
    (centerRow [some 5, some 3, none, none]).sum = 0 ∧
    ([some (5:ℚ), some 3, none, none].filterMap id = [] →
      centerRow [some 5, some 3, none, none] =
        List.replicate [some (5:ℚ), some 3, none, none].length 0)) :=
  ⟨by simp [scnRaw],
   C5_utility_matrix_centering scnRaw [some 5, some 3, none, none] (by simp [scnRaw])⟩

/-- Claim C10: loading a user's stored ratings never raises; a failed read
yields the empty Title/Rating table (the mean-centering in that branch is a
no-op on the empty table), and a successful read returns the ratings exactly
as stored, with no centering applied. -/
theorem C10_load_user_ratings_total (df : List (String × ℚ)) :
    load_user_ratings (some df) = df ∧
    load_user_ratings none = [] ∧
    centerRatings [] = [] :=
  ⟨rfl, rfl, rfl⟩

/-- Claim C4, counterexample: with a zero-magnitude second vector the
similarity is NaN (`none`), not the defined value 0 the claim asserts: the
float division `uv / sqrt(uu * vv)` has a zero denominator and scipy neither
guards it nor raises. -/
theorem C4_zero_vector_similarity_cex :
    simScore [(1:ℚ)] [(0:ℚ)] = none ∧ (simScore [(1:ℚ)] [(0:ℚ)]).isSome = false := by
  have h : simScore [(1:ℚ)] [(0:ℚ)] = none := by
    simp [simScore, dot]
  exact ⟨h, by rw [h]; rfl⟩

/-- Claim C4 (amended): if either vector has zero magnitude the similarity is
NaN (not 0, no exception); otherwise it equals the cosine similarity
`(x . y) / (norm x * norm y)`, lies in [-1, 1], and scipy's clip of the
distance to [0, 2] does not change it. -/
theorem C4_similarity_cases (x y : List ℚ) :
    (dot x x * dot y y = 0 → simScore x y = none) ∧
    (dot x x * dot y y ≠ 0 →
      simScore x y = some (dot x y, dot x x * dot y y) ∧
      simValue (dot x y, dot x x * dot y y) =
        (dot x y : ℝ) / (Real.sqrt ((dot x x : ℚ) : ℝ) * Real.sqrt ((dot y y : ℚ) : ℝ)) ∧
      -1 ≤ simValue (dot x y, dot x x * dot y y) ∧
      simValue (dot x y, dot x x * dot y y) ≤ 1 ∧
      1 - max 0 (min (1 - simValue (dot x y, dot x x * dot y y)) 2) =
        simValue (dot x y, dot x x * dot y y)) := by
  constructor
  · intro h
    simp [simScore, h]
  · intro h
    have hxx := dot_self_nonneg x
    have hyy := dot_self_nonneg y
    have hp : 0 < dot x x * dot y y := lt_of_le_of_ne (mul_nonneg hxx hyy) (Ne.symm h)
    have hpR : (0:ℝ) < ((dot x x * dot y y : ℚ) : ℝ) := by exact_mod_cast hp
    have hsplit : Real.sqrt ((dot x x * dot y y : ℚ) : ℝ) =
        Real.sqrt ((dot x x : ℚ) : ℝ) * Real.sqrt ((dot y y : ℚ) : ℝ) := by
      rw [show ((dot x x * dot y y : ℚ) : ℝ) = ((dot x x : ℚ) : ℝ) * ((dot y y : ℚ) : ℝ) by
        push_cast; ring]
      exact Real.sqrt_mul (by exact_mod_cast hxx) _
    have hq : simValue (dot x y, dot x x * dot y y) =
        (dot x y : ℝ) / (Real.sqrt ((dot x x : ℚ) : ℝ) * Real.sqrt ((dot y y : ℚ) : ℝ)) := by
      rw [simValue, hsplit]
    have hsq : simValue (dot x y, dot x x * dot y y) ^ 2 ≤ 1 := by
      rw [simValue, div_pow, Real.sq_sqrt hpR.le]
      rw [div_le_one hpR]
      have := dot_sq_le x y
      exact_mod_cast this
    have hsq1 : simValue (dot x y, dot x x * dot y y) ^ 2 ≤ (1:ℝ) ^ 2 := by
      rw [one_pow]; exact hsq
    have hbounds := abs_le_of_sq_le_sq' hsq1 (zero_le_one (α := ℝ))
    have hlo : -1 ≤ simValue (dot x y, dot x x * dot y y) := hbounds.1
    have hhi : simValue (dot x y, dot x x * dot y y) ≤ 1 := hbounds.2
    refine ⟨simScore_of_ne x y h, hq, hlo, hhi, ?_⟩
    rw [min_eq_left (by linarith), max_eq_right (by linarith)]
    ring

/-- Witness for C4 at x = [3], y = [4]: the hypothesis of the nonzero branch
holds and the branch's conclusion follows by applying the theorem. -/
theorem C4_similarity_cases_witness :
    dot [(3:ℚ)] [(3:ℚ)] * dot [(4:ℚ)] [(4:ℚ)] ≠ 0 ∧
    (simScore [(3:ℚ)] [(4:ℚ)] =
        some (dot [(3:ℚ)] [(4:ℚ)], dot [(3:ℚ)] [(3:ℚ)] * dot [(4:ℚ)] [(4:ℚ)]) ∧
      simValue (dot [(3:ℚ)] [(4:ℚ)], dot [(3:ℚ)] [(3:ℚ)] * dot [(4:ℚ)] [(4:ℚ)]) =
        (dot [(3:ℚ)] [(4:ℚ)] : ℝ) /
          (Real.sqrt ((dot [(3:ℚ)] [(3:ℚ)] : ℚ) : ℝ) *
            Real.sqrt ((dot [(4:ℚ)] [(4:ℚ)] : ℚ) : ℝ)) ∧
      -1 ≤ simValue (dot [(3:ℚ)] [(4:ℚ)], dot [(3:ℚ)] [(3:ℚ)] * dot [(4:ℚ)] [(4:ℚ)]) ∧
      simValue (dot [(3:ℚ)] [(4:ℚ)], dot [(3:ℚ)] [(3:ℚ)] * dot [(4:ℚ)] [(4:ℚ)]) ≤ 1 ∧
      1 - max 0 (min (1 - simValue (dot [(3:ℚ)] [(4:ℚ)],
          dot [(3:ℚ)] [(3:ℚ)] * dot [(4:ℚ)] [(4:ℚ)])) 2) =
        simValue (dot [(3:ℚ)] [(4:ℚ)], dot [(3:ℚ)] [(3:ℚ)] * dot [(4:ℚ)] [(4:ℚ)])) :=
  ⟨by norm_num [dot], (C4_similarity_cases [(3:ℚ)] [(4:ℚ)]).2 (by norm_num [dot])⟩

/-- Claim C3, counterexample: user entries [("X", 4), ("A", 5)] against a
catalog containing only "A".  The unresolvable first title makes the whole
query-vector construction abort with a bare IndexError: the resolvable entry
("A", 5) that follows is never processed and no row is produced, contradicting
the claim's per-entry error and continued processing. -/
theorem C3_unresolved_title_cex :
    buildQueryRow [⟨1, "A"⟩] [("X", 4), ("A", 5)]
        ([("X", (4:ℚ)), ("A", 5)].map (fun e => e.1)) [((1:ℤ), (0:ℚ))] =
      Except.error PyErr.indexError := by
  rfl

/-- Claim C3 (amended): if any user entry's title fails to resolve in the
catalog, the query-vector construction raises IndexError (a LookupError whose
message does not name the title) and aborts as a whole: no row is returned,
whatever other entries resolve. -/
theorem C3_unresolved_title_aborts (movies : List Movie) (ur : List (String × ℚ))
    (titles : List String) (acc : List (ℤ × ℚ))
    (h : ∃ t ∈ titles, movies.find? (fun m => m.title = t) = none) :
    buildQueryRow movies ur titles acc = Except.error PyErr.indexError := by
  induction titles generalizing acc with
  | nil => simp at h
  | cons t rest ih =>
    obtain ⟨t', ht', hfind⟩ := h
    rcases List.mem_cons.mp ht' with h1 | h1
    · subst h1
      simp only [buildQueryRow, hfind]
    · cases hf : movies.find? (fun m => m.title = t) with
      | none => simp only [buildQueryRow, hf]
      | some m =>
        cases hu : ur.find? (fun e => e.1 = t) with
        | none => simp only [buildQueryRow, hf, hu]
        | some e =>
          simp only [buildQueryRow, hf, hu]
          exact ih _ ⟨t', h1, hfind⟩

/-- Witness for C3's amended theorem: a one-entry table whose title "B" is not
in the catalog makes the construction return IndexError. -/
theorem C3_unresolved_title_aborts_witness :
    (∃ t ∈ ["B"], List.find? (fun m => m.title = t) [Movie.mk 1 "A"] = none) ∧
    buildQueryRow [⟨1, "A"⟩] [("B", (2:ℚ))] ["B"] [((1:ℤ), (0:ℚ))] =
      Except.error PyErr.indexError :=
  ⟨⟨"B", by simp, by rfl⟩,
   C3_unresolved_title_aborts [⟨1, "A"⟩] [("B", (2:ℚ))] ["B"] [((1:ℤ), (0:ℚ))]
     ⟨"B", by simp, by rfl⟩⟩

/-!  Lemmas: series assignment and the query-row invariant. -/

theorem setSeries_map_fst (l : List (ℤ × ℚ)) (k : ℤ) (v : ℚ)
    (h : k ∈ l.map (fun e => e.1)) :
    (setSeries l k v).map (fun e => e.1) = l.map (fun e => e.1) := by
  induction l with
  | nil => simp at h
  | cons e rest ih =>
    by_cases hk : e.1 = k
    · simp [setSeries, hk]
    · rw [List.map_cons] at h
      rcases List.mem_cons.mp h with h1 | h1
      · exact absurd h1.symm hk
      · simp [setSeries, hk, ih h1]

theorem setSeries_getD_eq (l : List (ℤ × ℚ)) (k : ℤ) (v : ℚ) (j : ℕ) (hj : j < l.length)
    (hfst : (l.get ⟨j, hj⟩).1 = k) (hnodup : (l.map (fun e => e.1)).Nodup) :
    (setSeries l k v).getD j (0, 0) = (k, v) := by
  induction l generalizing j with
  | nil => simp at hj
  | cons e rest ih =>
    have hnd := hnodup
    rw [List.map_cons, List.nodup_cons] at hnd
    obtain ⟨hhead, htail⟩ := hnd
    by_cases hk : e.1 = k
    · cases j with
      | zero => simp [setSeries, hk]
      | succ j' =>
        exfalso
        have hj' : j' < rest.length := by simpa using hj
        have hmem : k ∈ rest.map (fun x => x.1) :=
          List.mem_map.mpr ⟨rest.get ⟨j', hj'⟩, List.get_mem rest j' hj', by simpa using hfst⟩
        exact hhead (hk ▸ hmem)
    · cases j with
      | zero => exact absurd (by simpa using hfst) hk
      | succ j' =>
        have hj' : j' < rest.length := by simpa using hj
        simp only [setSeries, hk, if_false]
        simpa [List.getD] using ih j' hj' (by simpa using hfst) htail

theorem setSeries_getD_ne (l : List (ℤ × ℚ)) (k : ℤ) (v : ℚ) (j : ℕ) (hj : j < l.length)
    (hfst : (l.get ⟨j, hj⟩).1 ≠ k) :
    (setSeries l k v).getD j (0, 0) = l.getD j (0, 0) := by
  induction l generalizing j with
  | nil => simp at hj
  | cons e rest ih =>
    by_cases hk : e.1 = k
    · cases j with
      | zero => exact absurd (by simpa using hk) (by simpa using hfst)
      | succ j' => simp [setSeries, hk, List.getD]
    · cases j with
      | zero => simp [setSeries, hk, List.getD]
      | succ j' =>
        have hj' : j' < rest.length := by simpa using hj
        simp only [setSeries, hk, if_false]
        simpa [List.getD] using ih j' hj' (by simpa using hfst)

theorem find?_cons_self (e : String × ℚ) (rest : List (String × ℚ)) :
    (e :: rest).find? (fun x => x.1 = e.1) = some e := by
  simp [List.find?]

theorem find?_cons_ne (e : String × ℚ) (rest : List (String × ℚ)) (t : String)
    (h : t ≠ e.1) :
    (e :: rest).find? (fun x => x.1 = t) = rest.find? (fun x => x.1 = t) := by
  simp only [List.find?]
  rw [decide_eq_false (by simpa using h.symm)]

theorem map_fst_get_of_eq (acc : List (ℤ × ℚ)) (cols : List ℤ)
    (hmap : acc.map (fun e => e.1) = cols) (j : ℕ) (hj : j < cols.length) :
    ∃ hj' : j < acc.length, (acc.get ⟨j, hj'⟩).1 = cols.get ⟨j, hj⟩ := by
  have hlen : acc.length = cols.length := by
    rw [← hmap, List.length_map]
  refine ⟨hlen ▸ hj, ?_⟩
  have hj2 : j < (acc.map (fun e => e.1)).length := by
    rw [List.length_map]; exact hlen ▸ hj
  have := congrArg (fun l => l.getD j (0:ℤ)) hmap
  simp only at this
  rw [List.getD_eq_getElem _ _ hj2, List.getD_eq_getElem _ _ hj] at this
  simpa using this

theorem buildQueryRow_invariant (movies : List Movie) (ur : List (String × ℚ))
    (cols : List ℤ) (hcols : cols.Nodup) :
    ∀ (ur' : List (String × ℚ)) (acc : List (ℤ × ℚ)),
      acc.map (fun e => e.1) = cols →
      (∀ t ∈ ur'.map (fun e => e.1),
        ur.find? (fun e => e.1 = t) = ur'.find? (fun e => e.1 = t)) →
      (∀ e ∈ ur', ∃ c ∈ cols, resolvedId movies e.1 = some c) →
      (ur'.map (fun e => e.1)).Nodup →
      (ur'.map (fun e => resolvedId movies e.1)).Nodup →
      ∃ row, buildQueryRow movies ur (ur'.map (fun e => e.1)) acc = Except.ok row ∧
        row.map (fun e => e.1) = cols ∧
        (∀ j (hj : j < cols.length), ∀ e ∈ ur',
          resolvedId movies e.1 = some (cols.get ⟨j, hj⟩) →
          row.getD j (0, 0) = (cols.get ⟨j, hj⟩, e.2)) ∧
        (∀ j (hj : j < cols.length),
          (∀ e ∈ ur', resolvedId movies e.1 ≠ some (cols.get ⟨j, hj⟩)) →
          row.getD j (0, 0) = acc.getD j (0, 0)) := by
  intro ur'
  induction ur' with
  | nil =>
    intro acc hmap _ _ _ _
    exact ⟨acc, rfl, hmap, fun j hj e he => absurd he (List.not_mem_nil e),
      fun j hj _ => rfl⟩
  | cons e₁ rest ih =>
    intro acc hmap hfind hres hthead hidnodup
    obtain ⟨c, hcmem, hcid⟩ := hres e₁ (List.mem_cons_self e₁ rest)
    obtain ⟨m, hm, hmid⟩ : ∃ m, movies.find? (fun m' => m'.title = e₁.1) = some m ∧
        m.movieId = c := by
      unfold resolvedId at hcid
      cases hmf : movies.find? (fun m' => m'.title = e₁.1) with
      | none => rw [hmf] at hcid; simp at hcid
      | some m => rw [hmf] at hcid; exact ⟨m, rfl, by simpa using hcid⟩
    have hurfind : ur.find? (fun e => e.1 = e₁.1) = some e₁ := by
      rw [hfind e₁.1 (by simp), find?_cons_self]
    have hstep : buildQueryRow movies ur ((e₁ :: rest).map (fun e => e.1)) acc =
        buildQueryRow movies ur (rest.map (fun e => e.1))
          (setSeries acc m.movieId e₁.2) := by
      simp only [List.map_cons, buildQueryRow, hm, hurfind]
    rw [List.map_cons, List.nodup_cons] at hthead
    obtain ⟨hth1, hth2⟩ := hthead
    rw [List.map_cons, List.nodup_cons] at hidnodup
    obtain ⟨hid1, hid2⟩ := hidnodup
    have hcin : m.movieId ∈ acc.map (fun e => e.1) := by
      rw [hmap, hmid]; exact hcmem
    have hmapset : (setSeries acc m.movieId e₁.2).map (fun e => e.1) = cols := by
      rw [setSeries_map_fst acc m.movieId e₁.2 hcin, hmap]
    have hfind' : ∀ t ∈ rest.map (fun e => e.1),
        ur.find? (fun e => e.1 = t) = rest.find? (fun e => e.1 = t) := by
      intro t ht
      have hne : t ≠ e₁.1 := fun hteq => hth1 (hteq ▸ ht)
      rw [hfind t (List.mem_cons_of_mem _ ht), find?_cons_ne e₁ rest t hne]
    have hres' : ∀ e ∈ rest, ∃ c ∈ cols, resolvedId movies e.1 = some c :=
      fun e he => hres e (List.mem_cons_of_mem _ he)
    obtain ⟨row, hrow, hrmap, hwrite, hnowrite⟩ :=
      ih (setSeries acc m.movieId e₁.2) hmapset hfind' hres' hth2 hid2
    refine ⟨row, by rw [hstep]; exact hrow, hrmap, ?_, ?_⟩
    · intro j hj e he heid
      rcases List.mem_cons.mp he with h1 | h1
      · subst h1
        have hc_eq : c = cols.get ⟨j, hj⟩ := by
          rw [hcid] at heid
          exact Option.some_injective _ heid
        have hnorest : ∀ e' ∈ rest, resolvedId movies e'.1 ≠ some (cols.get ⟨j, hj⟩) := by
          intro e' he' heq
          apply hid1
          rw [List.mem_map]
          exact ⟨e', he', by rw [heq, ← hc_eq, ← hcid]⟩
        have hstep2 := hnowrite j hj hnorest
        obtain ⟨hj', hfstj⟩ := map_fst_get_of_eq acc cols hmap j hj
        have hset := setSeries_getD_eq acc m.movieId e.2 j hj'
          (by rw [hfstj, ← hc_eq, ← hmid]) (by rw [hmap]; exact hcols)
        rw [hstep2, hset, hmid, hc_eq]
      · exact hwrite j hj e h1 heid
    · intro j hj hnone
      have hnorest : ∀ e' ∈ rest, resolvedId movies e'.1 ≠ some (cols.get ⟨j, hj⟩) :=
        fun e' he' => hnone e' (List.mem_cons_of_mem _ he')
      have hstep2 := hnowrite j hj hnorest
      obtain ⟨hj', hfstj⟩ := map_fst_get_of_eq acc cols hmap j hj
      have hne : (acc.get ⟨j, hj'⟩).1 ≠ m.movieId := by
        rw [hfstj, hmid]
        intro hceq
        exact hnone e₁ (List.mem_cons_self e₁ rest) (by rw [hcid, hceq])
      rw [hstep2, setSeries_getD_ne acc m.movieId e₁.2 j hj' hne]

/-- Claim C9: when every rated title resolves in the catalog (and the shared
catalog keeps resolution consistent with the matrix columns: resolved ids are
columns, distinct entries resolve to distinct ids), the query vector has
exactly the utility matrix's column indexing, carries the user's raw
(uncentered) rating at each rated position, and 0 everywhere else. -/
theorem C9_query_vector_alignment (movies : List Movie) (ur : List (String × ℚ))
    (cols : List ℤ) (hcols : cols.Nodup)
    (hres : ∀ e ∈ ur, ∃ c ∈ cols, resolvedId movies e.1 = some c)
    (htitles : (ur.map (fun e => e.1)).Nodup)
    (hids : (ur.map (fun e => resolvedId movies e.1)).Nodup) :
    ∃ row, buildQueryRow movies ur (ur.map (fun e => e.1))
        (cols.map (fun c => (c, 0))) = Except.ok row ∧
      row.map (fun e => e.1) = cols ∧
      (∀ j (hj : j < cols.length), ∀ e ∈ ur,
        resolvedId movies e.1 = some (cols.get ⟨j, hj⟩) →
        row.getD j (0, 0) = (cols.get ⟨j, hj⟩, e.2)) ∧
      (∀ j (hj : j < cols.length),
        (∀ e ∈ ur, resolvedId movies e.1 ≠ some (cols.get ⟨j, hj⟩)) →
        row.getD j (0, 0) = (cols.get ⟨j, hj⟩, 0)) := by
  obtain ⟨row, hrow, hrmap, hwrite, hnowrite⟩ :=
    buildQueryRow_invariant movies ur cols hcols ur (cols.map (fun c => (c, 0)))
      (by simp [List.map_map, Function.comp_def]) (fun t _ => rfl) hres htitles hids
  refine ⟨row, hrow, hrmap, hwrite, ?_⟩
  intro j hj hnone
  rw [hnowrite j hj hnone]
  have hj' : j < (cols.map (fun c => (c, (0:ℚ)))).length := by
    rw [List.length_map]; exact hj
  rw [List.getD_eq_getElem _ _ hj']
  simp [List.getElem_map]

/-- Witness for C9 on the scenario catalog and ratings: the query vector over
columns [0, 1, 2, 3] is ok and aligned. -/
theorem C9_query_vector_alignment_witness :
    ∃ row, buildQueryRow scnMovies scnRatings (scnRatings.map (fun e => e.1))
        (scnCols.map (fun c => (c, 0))) = Except.ok row ∧
      row.map (fun e => e.1) = scnCols ∧
      (∀ j (hj : j < scnCols.length), ∀ e ∈ scnRatings,
        resolvedId scnMovies e.1 = some (scnCols.get ⟨j, hj⟩) →
        row.getD j (0, 0) = (scnCols.get ⟨j, hj⟩, e.2)) ∧
      (∀ j (hj : j < scnCols.length),
        (∀ e ∈ scnRatings, resolvedId scnMovies e.1 ≠ some (scnCols.get ⟨j, hj⟩)) →
        row.getD j (0, 0) = (scnCols.get ⟨j, hj⟩, 0)) :=
  C9_query_vector_alignment scnMovies scnRatings scnCols (by decide)
    (by decide) (by decide) (by decide)

/-!  Lemmas: the aggregator. -/

theorem mem_keptCols (cols : List ℤ) (rows : List (List ℚ)) (j : ℕ)
    (h : j ∈ keptCols cols rows) :
    j < cols.length ∧ nzVals rows j ≠ [] := by
  unfold keptCols at h
  have hmem := List.mem_filter.mp h
  exact ⟨List.mem_range.mp hmem.1, by simpa using hmem.2⟩

theorem mem_aggregate (cols : List ℤ) (rows : List (List ℚ)) (id : ℤ)
    (h : id ∈ aggregate cols rows) :
    ∃ j, j < cols.length ∧ cols.getD j 0 = id ∧ nzVals rows j ≠ [] := by
  unfold aggregate at h
  have h1 : id ∈ (rankedCols cols rows).map (fun p => p.1) :=
    List.mem_of_mem_take h
  obtain ⟨p, hp, hpid⟩ := List.mem_map.mp h1
  have h2 : p ∈ (keptCols cols rows).map (fun j => (cols.getD j 0, colMean rows j)) :=
    (sortDescBy_perm _ _).mem_iff.mp hp
  obtain ⟨j, hj, hpj⟩ := List.mem_map.mp h2
  obtain ⟨hjlt, hnz⟩ := mem_keptCols cols rows j hj
  refine ⟨j, hjlt, ?_, hnz⟩
  rw [← hpid, ← hpj]

theorem nzVals_nonzero_cell (rows : List (List ℚ)) (j : ℕ) (h : nzVals rows j ≠ []) :
    ∃ r ∈ rows, r.getD j 0 ≠ 0 := by
  obtain ⟨v, hv⟩ := List.exists_mem_of_ne_nil _ h
  have hv' := List.mem_filter.mp hv
  obtain ⟨r, hr, hrv⟩ := List.mem_map.mp hv'.1
  exact ⟨r, hr, by rw [hrv]; simpa using hv'.2⟩

/-- Claim C7: every item the aggregator returns was non-trivially rated by at
least one selected neighbor (its column is not all the unrated sentinel 0),
and the surviving columns are ranked by the mean of their non-zero cells in
descending order. -/
theorem C7_aggregator_informative (cols : List ℤ) (rows : List (List ℚ)) :
    (∀ id ∈ aggregate cols rows,
      ∃ j, j < cols.length ∧ cols.getD j 0 = id ∧ ∃ r ∈ rows, r.getD j 0 ≠ 0) ∧
    (rankedCols cols rows).Pairwise (fun p q => q.2 ≤ p.2) ∧
    (∀ p ∈ rankedCols cols rows,
      ∃ j, j < cols.length ∧ cols.getD j 0 = p.1 ∧ p.2 = colMean rows j ∧
        nzVals rows j ≠ []) := by
  refine ⟨?_, ?_, ?_⟩
  · intro id hid
    obtain ⟨j, hjlt, hjid, hnz⟩ := mem_aggregate cols rows id hid
    exact ⟨j, hjlt, hjid, nzVals_nonzero_cell rows j hnz⟩
  · have hpw := sortDescBy_pairwise_desc (fun a b : ℚ => decide (a < b)) (fun _ => True)
      (fun x y _ _ h => ratLt_asymm x y h)
      (fun x y z _ _ _ h h' => ratLt_trans x y z h h')
      ((keptCols cols rows).map (fun j => (cols.getD j 0, colMean rows j)))
      (fun a _ => trivial)
    unfold rankedCols
    refine hpw.imp ?_
    intro p q hpq
    simpa using hpq
  · intro p hp
    have h2 : p ∈ (keptCols cols rows).map (fun j => (cols.getD j 0, colMean rows j)) :=
      (sortDescBy_perm _ _).mem_iff.mp hp
    obtain ⟨j, hj, hpj⟩ := List.mem_map.mp h2
    obtain ⟨hjlt, hnz⟩ := mem_keptCols cols rows j hj
    exact ⟨j, hjlt, by rw [← hpj], by rw [← hpj], hnz⟩

/-- Witness for C7 on a two-column aggregation where only column 0 carries a
non-zero neighbor rating. -/
theorem C7_aggregator_informative_witness :
    (∀ id ∈ aggregate [0, 1] [[1, 0], [0, 0]],
      ∃ j, j < [(0:ℤ), 1].length ∧ [(0:ℤ), 1].getD j 0 = id ∧
        ∃ r ∈ [[(1:ℚ), 0], [0, 0]], r.getD j 0 ≠ 0) ∧
    (rankedCols [0, 1] [[1, 0], [0, 0]]).Pairwise (fun p q => q.2 ≤ p.2) ∧
    (∀ p ∈ rankedCols [0, 1] [[1, 0], [0, 0]],
      ∃ j, j < [(0:ℤ), 1].length ∧ [(0:ℤ), 1].getD j 0 = p.1 ∧
        p.2 = colMean [[1, 0], [0, 0]] j ∧ nzVals [[1, 0], [0, 0]] j ≠ []) :=
  C7_aggregator_informative [0, 1] [[1, 0], [0, 0]]

/-!  Lemmas: shape of the correlation list. -/

theorem corr_map_fst (sims : List (ℚ × ℚ)) :
    ((List.range sims.length).map
      (fun i => (i, some (sims.getD i (0, 1))))).map (fun p => p.1) =
      List.range sims.length := by
  rw [List.map_map]
  exact List.map_id _

theorem corr_shape (sims : List (ℚ × ℚ)) (p : ℕ × Option (ℚ × ℚ))
    (hp : p ∈ (List.range sims.length).map (fun i => (i, some (sims.getD i (0, 1))))) :
    p.1 < sims.length ∧ p.2 = some (sims.getD p.1 (0, 1)) := by
  obtain ⟨i, hi, hip⟩ := List.mem_map.mp hp
  have hlt := List.mem_range.mp hi
  cases hip
  exact ⟨hlt, rfl⟩

theorem corr_pos (sims : List (ℚ × ℚ)) (hp : ∀ s ∈ sims, 0 < s.2)
    (p : ℕ × Option (ℚ × ℚ))
    (hmem : p ∈ (List.range sims.length).map (fun i => (i, some (sims.getD i (0, 1))))) :
    PosScore p.2 := by
  obtain ⟨hlt, hshape⟩ := corr_shape sims p hmem
  have hget : sims.getD p.1 (0, 1) ∈ sims := by
    rw [List.getD_eq_getElem _ _ hlt]
    exact List.getElem_mem hlt
  exact ⟨(sims.getD p.1 (0, 1)).1, (sims.getD p.1 (0, 1)).2,
    by rw [hshape], hp _ hget⟩

/-- Claim C6: given similarity scores for the population (one non-NaN score
per row, as `simScore` produces on any non-degenerate input), the selection
`sorted(correlations.items(), key=..., reverse=True)[:20]` returns exactly
min(20, population) distinct row indices, all in range; when the population
has at most 20 rows every row is returned; the selected indices are ordered by
descending similarity value with ties broken by original row order; and no
unselected row has a larger similarity value than any selected one. -/
theorem C6_neighbor_selection (sims : List (ℚ × ℚ)) (hp : ∀ s ∈ sims, 0 < s.2) :
    (((sortDescBy scoreLt ((List.range sims.length).map
        (fun i => (i, some (sims.getD i (0, 1)))))).take 20).map
          (fun p => p.1)).length = min 20 sims.length ∧
    (((sortDescBy scoreLt ((List.range sims.length).map
        (fun i => (i, some (sims.getD i (0, 1)))))).take 20).map
          (fun p => p.1)).Nodup ∧
    (∀ i ∈ ((sortDescBy scoreLt ((List.range sims.length).map
        (fun i => (i, some (sims.getD i (0, 1)))))).take 20).map (fun p => p.1),
      i < sims.length) ∧
    (sims.length ≤ 20 → ∀ i < sims.length,
      i ∈ ((sortDescBy scoreLt ((List.range sims.length).map
        (fun i => (i, some (sims.getD i (0, 1)))))).take 20).map (fun p => p.1)) ∧
    (((sortDescBy scoreLt ((List.range sims.length).map
        (fun i => (i, some (sims.getD i (0, 1)))))).take 20).map
          (fun p => p.1)).Pairwise (fun i j =>
      simValue (sims.getD j (0, 1)) ≤ simValue (sims.getD i (0, 1)) ∧
      (simValue (sims.getD i (0, 1)) = simValue (sims.getD j (0, 1)) → i < j)) ∧
    (∀ i ∈ ((sortDescBy scoreLt ((List.range sims.length).map
        (fun i => (i, some (sims.getD i (0, 1)))))).take 20).map (fun p => p.1),
      ∀ j < sims.length,
        j ∉ ((sortDescBy scoreLt ((List.range sims.length).map
          (fun i => (i, some (sims.getD i (0, 1)))))).take 20).map (fun p => p.1) →
        simValue (sims.getD j (0, 1)) ≤ simValue (sims.getD i (0, 1))) := by
  set n := sims.length with hn
  set corr := (List.range n).map (fun i => (i, some (sims.getD i (0, 1)))) with hcorr
  set ranked := sortDescBy scoreLt corr with hranked
  have hperm : ranked.Perm corr := sortDescBy_perm scoreLt corr
  have hlenr : ranked.length = n := by
    rw [hperm.length_eq, hcorr, List.length_map, List.length_range]
  have hmemshape : ∀ p ∈ ranked, p.1 < n ∧ p.2 = some (sims.getD p.1 (0, 1)) :=
    fun p hp' => corr_shape sims p (hperm.mem_iff.mp hp')
  have hfstperm : (ranked.map (fun p => p.1)).Perm (List.range n) := by
    have := hperm.map (fun p : ℕ × Option (ℚ × ℚ) => p.1)
    rwa [hcorr, corr_map_fst] at this
  have hvlt : ∀ p ∈ ranked, ∀ q ∈ ranked, scoreLt p.2 q.2 = true ↔
      simValue (sims.getD p.1 (0, 1)) < simValue (sims.getD q.1 (0, 1)) := by
    intro p hpm q hqm
    obtain ⟨hplt, hpsh⟩ := hmemshape p hpm
    obtain ⟨hqlt, hqsh⟩ := hmemshape q hqm
    have hppos : 0 < (sims.getD p.1 (0, 1)).2 := by
      refine hp _ ?_
      rw [List.getD_eq_getElem _ _ hplt]
      exact List.getElem_mem hplt
    have hqpos : 0 < (sims.getD q.1 (0, 1)).2 := by
      refine hp _ ?_
      rw [List.getD_eq_getElem _ _ hqlt]
      exact List.getElem_mem hqlt
    rw [hpsh, hqsh]
    exact scoreLt_iff_simValue _ _ _ _ hppos hqpos
  have hdesc : ranked.Pairwise (fun p q => scoreLt p.2 q.2 = false) := by
    refine sortDescBy_pairwise_desc scoreLt PosScore scoreLt_asymm_pos
      scoreLt_trans_pos corr ?_
    exact fun a ha => corr_pos sims hp a ha
  have hmono : corr.Pairwise (fun p q => p.1 < q.1) := by
    rw [hcorr, List.pairwise_map]
    exact List.pairwise_lt_range n
  have hstab : ranked.Pairwise (fun p q => scoreLt q.2 p.2 = true ∨ p.1 < q.1) :=
    sortDescBy_pairwise_stable scoreLt PosScore scoreLt_asymm_pos
      scoreLt_trans_pos scoreLt_lower_pos corr (fun a ha => corr_pos sims hp a ha) hmono
  refine ⟨?_, ?_, ?_, ?_, ?_, ?_⟩
  · rw [List.length_map, List.length_take, hlenr]
  · have h1 : ((ranked.take 20).map (fun p => p.1)) =
        (ranked.map (fun p => p.1)).take 20 := List.map_take _ _ _
    rw [h1]
    exact (List.take_sublist _ _).nodup (hfstperm.symm.nodup (List.nodup_range n))
  · intro i hi
    obtain ⟨p, hpm, hpi⟩ := List.mem_map.mp hi
    obtain ⟨hplt, _⟩ := hmemshape p (List.mem_of_mem_take hpm)
    rw [← hpi]
    exact hplt
  · intro hle i hilt
    have htake : ranked.take 20 = ranked := List.take_of_length_le (by rw [hlenr]; exact hle)
    rw [htake]
    have : i ∈ ranked.map (fun p => p.1) :=
      hfstperm.mem_iff.mpr (List.mem_range.mpr hilt)
    exact this
  · have hcomb := hdesc.and hstab
    have htk : (ranked.take 20).Pairwise (fun p q =>
        (scoreLt p.2 q.2 = false) ∧ (scoreLt q.2 p.2 = true ∨ p.1 < q.1)) :=
      List.Pairwise.sublist (List.take_sublist 20 ranked) hcomb
    rw [List.pairwise_map]
    refine htk.imp_of_mem ?_
    intro p q hpm hqm hpq
    have hpm' := List.mem_of_mem_take hpm
    have hqm' := List.mem_of_mem_take hqm
    obtain ⟨h1, h2⟩ := hpq
    have hnotlt : ¬ simValue (sims.getD p.1 (0, 1)) < simValue (sims.getD q.1 (0, 1)) := by
      intro hc
      rw [← hvlt p hpm' q hqm'] at hc
      rw [h1] at hc
      exact Bool.false_ne_true hc
    constructor
    · exact not_lt.mp hnotlt
    · intro heq
      rcases h2 with h2 | h2
      · exfalso
        rw [hvlt q hqm' p hpm'] at h2
        rw [heq] at h2
        exact lt_irrefl _ h2
      · exact h2
  · intro i hi j hjlt hjnot
    obtain ⟨p, hpm, hpi⟩ := List.mem_map.mp hi
    have hjmem : j ∈ ranked.map (fun p => p.1) :=
      hfstperm.mem_iff.mpr (List.mem_range.mpr hjlt)
    obtain ⟨q, hqm, hqj⟩ := List.mem_map.mp hjmem
    have hqsplit : q ∈ ranked.take 20 ++ ranked.drop 20 := by
      rw [List.take_append_drop]
      exact hqm
    have hqdrop : q ∈ ranked.drop 20 := by
      rcases List.mem_append.mp hqsplit with hq1 | hq1
      · exact absurd (List.mem_map.mpr ⟨q, hq1, hqj⟩) hjnot
      · exact hq1
    have hcross : ∀ a ∈ ranked.take 20, ∀ b ∈ ranked.drop 20,
        scoreLt a.2 b.2 = false := by
      have hpw : (ranked.take 20 ++ ranked.drop 20).Pairwise
          (fun p q => scoreLt p.2 q.2 = false) := by
        rw [List.take_append_drop]
        exact hdesc
      exact (List.pairwise_append.mp hpw).2.2
    have hscore := hcross p hpm q hqdrop
    have hnotlt : ¬ simValue (sims.getD p.1 (0, 1)) < simValue (sims.getD q.1 (0, 1)) := by
      intro hc
      rw [← hvlt p (List.mem_of_mem_take hpm) q (List.mem_of_mem_drop hqdrop)] at hc
      rw [hscore] at hc
      exact Bool.false_ne_true hc
    rw [← hpi, ← hqj]
    exact not_lt.mp hnotlt

/-!  Evaluation lemmas for the 3-rows-over-4-items scenario. -/

theorem scn_center_eval : load_movielens_data scnRaw =
    [[1, -1, 0, 0], [0, -1/2, 1/2, 0], [-2, 0, 0, 2]] := by
  norm_num [load_movielens_data, scnRaw, centerRow, rowMean, List.filterMap_cons]

theorem scn_nzVals_eval :
    nzVals [[(1:ℚ), -1, 0, 0], [0, -1/2, 1/2, 0], [-2, 0, 0, 2]] 0 = [1, -2] ∧
    nzVals [[(1:ℚ), -1, 0, 0], [0, -1/2, 1/2, 0], [-2, 0, 0, 2]] 1 = [-1, -1/2] ∧
    nzVals [[(1:ℚ), -1, 0, 0], [0, -1/2, 1/2, 0], [-2, 0, 0, 2]] 2 = [1/2] ∧
    nzVals [[(1:ℚ), -1, 0, 0], [0, -1/2, 1/2, 0], [-2, 0, 0, 2]] 3 = [2] := by
  refine ⟨?_, ?_, ?_, ?_⟩ <;> norm_num [nzVals, colVals, List.getD, List.filter_cons]

theorem scn_colMean_eval :
    colMean [[(1:ℚ), -1, 0, 0], [0, -1/2, 1/2, 0], [-2, 0, 0, 2]] 0 = -1/2 ∧
    colMean [[(1:ℚ), -1, 0, 0], [0, -1/2, 1/2, 0], [-2, 0, 0, 2]] 1 = -3/4 ∧
    colMean [[(1:ℚ), -1, 0, 0], [0, -1/2, 1/2, 0], [-2, 0, 0, 2]] 2 = 1/2 ∧
    colMean [[(1:ℚ), -1, 0, 0], [0, -1/2, 1/2, 0], [-2, 0, 0, 2]] 3 = 2 := by
  obtain ⟨hz0, hz1, hz2, hz3⟩ := scn_nzVals_eval
  refine ⟨?_, ?_, ?_, ?_⟩
  · rw [colMean, hz0]; norm_num
  · rw [colMean, hz1]; norm_num
  · rw [colMean, hz2]; norm_num
  · rw [colMean, hz3]; norm_num

theorem scn_aggregate_eval :
    aggregate scnCols [[(1:ℚ), -1, 0, 0], [0, -1/2, 1/2, 0], [-2, 0, 0, 2]] =
      [3, 2, 0, 1] := by
  obtain ⟨hz0, hz1, hz2, hz3⟩ := scn_nzVals_eval
  obtain ⟨hm0, hm1, hm2, hm3⟩ := scn_colMean_eval
  have hk : keptCols scnCols [[(1:ℚ), -1, 0, 0], [0, -1/2, 1/2, 0], [-2, 0, 0, 2]] =
      [0, 1, 2, 3] := by
    rw [keptCols, show scnCols.length = 4 from rfl,
      show List.range 4 = [0, 1, 2, 3] from rfl]
    simp only [List.filter_cons, List.filter_nil]
    rw [hz0, hz1, hz2, hz3]
    simp
  have hr : rankedCols scnCols [[(1:ℚ), -1, 0, 0], [0, -1/2, 1/2, 0], [-2, 0, 0, 2]] =
      [(3, 2), (2, 1/2), (0, -1/2), (1, -3/4)] := by
    rw [rankedCols, hk]
    simp only [List.map_cons, List.map_nil]
    rw [hm0, hm1, hm2, hm3]
    norm_num [sortDescBy, insertDescBy, scnCols, List.getD]
  rw [aggregate, hr]
  rfl

theorem scn_corr_eval :
    (List.range 3).map (fun i =>
        (i, simScore ((load_movielens_data scnRaw).getD i []) [(5:ℚ), 3, 0, 0])) =
      [(0, some (2, 68)), (1, some (-3/2, 17)), (2, some (-10, 272))] := by
  simp only [scn_center_eval, show List.range 3 = [0, 1, 2] from rfl,
    List.map_cons, List.map_nil]
  norm_num [simScore, dot, List.getD]

theorem scn_rank_eval :
    sortDescBy scoreLt
        [((0:ℕ), some ((2:ℚ), (68:ℚ))), (1, some (-3/2, 17)), (2, some (-10, 272))] =
      [(0, some (2, 68)), (1, some (-3/2, 17)), (2, some (-10, 272))] := by
  norm_num [sortDescBy, insertDescBy, scoreLt]

/-- Claim C8, counterexample: calling `recommend_movies` itself on the 3x4
scenario produces no ranking and no recommendation at all: the hard-coded
`pd.Series([0]*14076, index=utility.columns)` raises ValueError because the
scenario matrix has 4 columns, not 14076. -/
theorem C8_scenario_cex :
    recommend_movies scnRatings scnUtility scnMovies = Except.error PyErr.valueError := by
  rfl

/-- Claim C8 (amended): the pipeline stages of `recommend_movies` applied to
the scenario behave as the claim says, even though the function itself rejects
the 3x4 shape: the query vector is the raw [5, 3, 0, 0]; after centering and
cosine scoring the neighbor ranking places row 0 (the [5, 3, 0, 0]-like row)
highest; the aggregation over the ranked neighbors recommends item 3 first,
an item the user did not rate (ids 0 and 1), and among the kept unrated
columns {2, 3} item 3 has the highest neighbor mean. -/
theorem C8_scenario_pipeline :
    buildQueryRow scnMovies scnRatings (scnRatings.map (fun e => e.1))
        (scnCols.map (fun c => (c, 0))) =
      Except.ok [(0, 5), (1, 3), (2, 0), (3, 0)] ∧
    [((0:ℤ), (5:ℚ)), (1, 3), (2, 0), (3, 0)].map (fun e => e.2) = [5, 3, 0, 0] ∧
    ((sortDescBy scoreLt ((List.range 3).map (fun i =>
        (i, simScore ((load_movielens_data scnRaw).getD i []) [(5:ℚ), 3, 0, 0])))).take 20).map
          (fun p => p.1) = [0, 1, 2] ∧
    aggregate scnCols (((((sortDescBy scoreLt ((List.range 3).map (fun i =>
        (i, simScore ((load_movielens_data scnRaw).getD i []) [(5:ℚ), 3, 0, 0])))).take 20).map
          (fun p => p.1)).map (fun i => (load_movielens_data scnRaw).getD i []))) =
      [3, 2, 0, 1] ∧
    resolvedId scnMovies "M0" = some 0 ∧ resolvedId scnMovies "M1" = some 1 ∧
    (3:ℤ) ≠ 0 ∧ (3:ℤ) ≠ 1 ∧
    colMean [[(1:ℚ), -1, 0, 0], [0, -1/2, 1/2, 0], [-2, 0, 0, 2]] 2 ≤
      colMean [[(1:ℚ), -1, 0, 0], [0, -1/2, 1/2, 0], [-2, 0, 0, 2]] 3 := by
  have hsel : ((sortDescBy scoreLt ((List.range 3).map (fun i =>
      (i, simScore ((load_movielens_data scnRaw).getD i []) [(5:ℚ), 3, 0, 0])))).take 20).map
        (fun p => p.1) = [0, 1, 2] := by
    rw [scn_corr_eval, scn_rank_eval]
    rfl
  refine ⟨rfl, rfl, hsel, ?_, rfl, rfl, by decide, by decide, ?_⟩
  · rw [hsel]
    have hclosest : ([0, 1, 2].map (fun i => (load_movielens_data scnRaw).getD i [])) =
        [[(1:ℚ), -1, 0, 0], [0, -1/2, 1/2, 0], [-2, 0, 0, 2]] := by
      simp only [scn_center_eval, List.map_cons, List.map_nil]
      norm_num [List.getD]
    rw [hclosest, scn_aggregate_eval]
  · obtain ⟨_, _, hm2, hm3⟩ := scn_colMean_eval
    rw [hm2, hm3]
    norm_num

/-!  Evaluation lemmas for the full-size demo matrix. -/

theorem demoCols_length : demoCols.length = MAX_MOVIE_ID := by
  rw [demoCols, List.length_map, List.length_range]

theorem demoRow_length : demoRow.length = MAX_MOVIE_ID := by
  rw [demoRow, List.length_cons, List.length_cons, List.length_replicate]
  norm_num [MAX_MOVIE_ID]

theorem demoRows_getD (i : ℕ) (hi : i < MAX_USER_ID) :
    (List.replicate MAX_USER_ID demoRow).getD i [] = demoRow := by
  have hlen : i < (List.replicate MAX_USER_ID demoRow).length := by
    rw [List.length_replicate]; exact hi
  rw [List.getD_eq_getElem _ _ hlen, List.getElem_replicate]

theorem demoQuery_zero :
    ∀ v ∈ (demoCols.map (fun c => (c, (0:ℚ)))).map (fun e => e.2), v = 0 := by
  intro v hv
  rw [List.map_map] at hv
  obtain ⟨c, _, hc⟩ := List.mem_map.mp hv
  exact hc.symm

theorem demoRow_getD_tail (j : ℕ) : demoRow.getD (j + 2) 0 = 0 := by
  show (List.replicate (MAX_MOVIE_ID - 2) (0:ℚ)).getD j 0 = 0
  rw [List.getD_eq_getElem?_getD]
  by_cases hj : j < MAX_MOVIE_ID - 2
  · rw [List.getElem?_eq_getElem (by rw [List.length_replicate]; exact hj)]
    simp [List.getElem_replicate]
  · rw [List.getElem?_eq_none (by rw [List.length_replicate]; omega)]
    rfl

theorem demo_corr_eval :
    (List.range MAX_USER_ID).map (fun i =>
      (i, simScore ((List.replicate MAX_USER_ID demoRow).getD i [])
        ((demoCols.map (fun c => (c, 0))).map (fun e => e.2)))) =
    (List.range MAX_USER_ID).map (fun i => (i, (none : Option (ℚ × ℚ)))) := by
  refine List.map_congr_left ?_
  intro i hi
  have hq : dot ((demoCols.map (fun c => (c, 0))).map (fun e => e.2))
      ((demoCols.map (fun c => (c, 0))).map (fun e => e.2)) = 0 :=
    dot_right_zero _ _ demoQuery_zero
  have hns : simScore ((List.replicate MAX_USER_ID demoRow).getD i [])
      ((demoCols.map (fun c => (c, 0))).map (fun e => e.2)) = none := by
    rw [simScore, if_pos]
    rw [hq, mul_zero]
  rw [hns]

theorem demo_sort_eval :
    sortDescBy scoreLt
      ((List.range MAX_USER_ID).map (fun i => (i, (none : Option (ℚ × ℚ))))) =
    (List.range MAX_USER_ID).map (fun i => (i, (none : Option (ℚ × ℚ)))) := by
  refine sortDescBy_eq_self scoreLt _ ?_
  intro p hp q hq
  obtain ⟨i, _, hip⟩ := List.mem_map.mp hp
  rw [← hip]
  rfl

theorem demoCols_getD (j : ℕ) (hj : j < MAX_MOVIE_ID) :
    demoCols.getD j 0 = Int.ofNat j := by
  have h : demoCols.getD j 0 =
      ((List.range MAX_MOVIE_ID).map (fun i => Int.ofNat i)).getD j 0 := rfl
  have hj' : j < ((List.range MAX_MOVIE_ID).map (fun i => Int.ofNat i)).length := by
    rw [List.length_map, List.length_range]; exact hj
  rw [h, List.getD_eq_getElem _ _ hj', List.getElem_map, List.getElem_range]

theorem demo_colVals (j : ℕ) :
    colVals ((List.range 20).map (fun _ => demoRow)) j =
      List.replicate 20 (demoRow.getD j 0) := by
  rw [colVals, List.map_map]
  have hcomp : ((fun r : List ℚ => r.getD j 0) ∘ (fun _ : ℕ => demoRow)) =
      (fun _ : ℕ => demoRow.getD j 0) := rfl
  rw [hcomp, List.map_const', List.length_range]

theorem demo_nzVals_zero :
    nzVals ((List.range 20).map (fun _ => demoRow)) 0 = List.replicate 20 1 := by
  rw [nzVals, demo_colVals]
  rw [show demoRow.getD 0 0 = 1 from rfl]
  rw [List.filter_replicate]
  norm_num

theorem demo_nzVals_one :
    nzVals ((List.range 20).map (fun _ => demoRow)) 1 = List.replicate 20 (-1) := by
  rw [nzVals, demo_colVals]
  rw [show demoRow.getD 1 0 = -1 from rfl]
  rw [List.filter_replicate]
  norm_num

theorem demo_nzVals_tail (j : ℕ) :
    nzVals ((List.range 20).map (fun _ => demoRow)) (j + 2) = [] := by
  rw [nzVals, demo_colVals, demoRow_getD_tail]
  rw [List.filter_replicate]
  norm_num

theorem filter_range_two (p : ℕ → Bool) (hp0 : p 0 = true) (hp1 : p 1 = true)
    (hp : ∀ j, p (j + 2) = false) : ∀ n, (List.range (n + 2)).filter p = [0, 1] := by
  intro n
  induction n with
  | zero =>
    rw [show List.range 2 = [0, 1] from rfl]
    rw [List.filter_cons, List.filter_cons, hp0, hp1]
    rfl
  | succ k ih =>
    rw [show k + 1 + 2 = (k + 2) + 1 by omega, List.range_succ, List.filter_append, ih]
    rw [List.filter_cons, hp k]
    rfl

theorem demo_keptCols_gen (rows : List (List ℚ))
    (h0 : nzVals rows 0 ≠ []) (h1 : nzVals rows 1 ≠ [])
    (ht : ∀ j, nzVals rows (j + 2) = []) :
    keptCols demoCols rows = [0, 1] := by
  rw [keptCols, demoCols_length]
  rw [show MAX_MOVIE_ID = 14074 + 2 by norm_num [MAX_MOVIE_ID]]
  refine filter_range_two _ ?_ ?_ ?_ 14074
  · rw [decide_eq_true_eq]
    exact h0
  · rw [decide_eq_true_eq]
    exact h1
  · intro j
    rw [ht j]
    simp

theorem demo_keptCols :
    keptCols demoCols ((List.range 20).map (fun _ => demoRow)) = [0, 1] :=
  demo_keptCols_gen _ (by rw [demo_nzVals_zero]; simp)
    (by rw [demo_nzVals_one]; simp)
    demo_nzVals_tail

theorem demo_colMean_zero :
    colMean ((List.range 20).map (fun _ => demoRow)) 0 = 1 := by
  rw [colMean, demo_nzVals_zero, List.sum_replicate, List.length_replicate]
  norm_num

theorem demo_colMean_one :
    colMean ((List.range 20).map (fun _ => demoRow)) 1 = -1 := by
  rw [colMean, demo_nzVals_one, List.sum_replicate, List.length_replicate]
  norm_num

theorem demo_rankedCols :
    rankedCols demoCols ((List.range 20).map (fun _ => demoRow)) =
      [(Int.ofNat 0, 1), (Int.ofNat 1, -1)] := by
  rw [rankedCols, demo_keptCols]
  rw [List.map_cons, List.map_cons, List.map_nil]
  rw [demoCols_getD 0 (by norm_num [MAX_MOVIE_ID]),
    demoCols_getD 1 (by norm_num [MAX_MOVIE_ID])]
  rw [demo_colMean_zero, demo_colMean_one]
  norm_num [sortDescBy, insertDescBy]

theorem demo_aggregate :
    aggregate demoCols ((List.range 20).map (fun _ => demoRow)) =
      [Int.ofNat 0, Int.ofNat 1] := by
  rw [aggregate, demo_rankedCols]
  rfl

theorem demo_resolve :
    resolveTitles demoMovies [Int.ofNat 0, Int.ofNat 1] = Except.ok ["A", "B"] := by
  rfl

theorem query_vals_zero (cols : List ℤ) :
    ∀ v ∈ (cols.map (fun c => (c, (0:ℚ)))).map (fun e => e.2), v = 0 := by
  intro v hv
  rw [List.map_map] at hv
  obtain ⟨c, _, hc⟩ := List.mem_map.mp hv
  exact hc.symm

/-- Helper: for a user with zero rating entries and a utility matrix of the
shape the code hard-codes, every similarity is NaN, the NaN-keyed sort keeps
the original row order, and the run reduces to aggregation over the first 20
rows. -/
theorem zero_ratings_first20 (cols : List ℤ) (rows : List (List ℚ))
    (movies : List Movie)
    (hc : cols.length = MAX_MOVIE_ID) (hr : MAX_USER_ID ≤ rows.length)
    (hrow : ∀ i < MAX_USER_ID, (rows.getD i []).length = cols.length) :
    recommend_movies [] ⟨cols, rows⟩ movies =
      resolveTitles movies (aggregate cols
        ((List.range 20).map (fun i => rows.getD i []))) := by
  unfold recommend_movies
  rw [if_neg (fun h => h hc)]
  simp only [List.map_nil, buildQueryRow]
  rw [if_neg (by omega)]
  have hq0 : dot ((cols.map (fun c => (c, (0:ℚ)))).map (fun e => e.2))
      ((cols.map (fun c => (c, (0:ℚ)))).map (fun e => e.2)) = 0 :=
    dot_right_zero _ _ (query_vals_zero cols)
  have hany : (List.range MAX_USER_ID).any (fun i =>
      decide ((rows.getD i []).length ≠
        (cols.map (fun c => (c, (0:ℚ)))).length)) = false := by
    rw [List.any_eq_false]
    intro i hi
    rw [hrow i (List.mem_range.mp hi), List.length_map]
    simp
  rw [if_neg (by rw [hany]; exact Bool.false_ne_true)]
  have hcorr : (List.range MAX_USER_ID).map (fun i =>
      (i, simScore (rows.getD i [])
        ((cols.map (fun c => (c, (0:ℚ)))).map (fun e => e.2)))) =
      (List.range MAX_USER_ID).map (fun i => (i, (none : Option (ℚ × ℚ)))) := by
    refine List.map_congr_left ?_
    intro i _
    have hns : simScore (rows.getD i [])
        ((cols.map (fun c => (c, (0:ℚ)))).map (fun e => e.2)) = none := by
      rw [simScore, if_pos]
      rw [hq0, mul_zero]
    rw [hns]
  rw [hcorr]
  rw [sortDescBy_eq_self scoreLt _ (by
    intro p hp q hq
    obtain ⟨i, _, hip⟩ := List.mem_map.mp hp
    rw [← hip]
    rfl)]
  rw [← List.map_take, List.take_range,
    show (20 ⊓ MAX_USER_ID) = 20 by norm_num [MAX_USER_ID]]
  rw [List.map_map]
  rw [List.map_map]
  rw [show ((fun i => rows.getD i []) ∘ (fun p : ℕ × Option (ℚ × ℚ) => p.1)) ∘
    (fun i : ℕ => (i, (none : Option (ℚ × ℚ)))) = (fun i : ℕ => rows.getD i []) from rfl]

theorem demo_eval : recommend_movies [] demoMatrix demoMovies = Except.ok ["A", "B"] := by
  have hM : demoMatrix = ⟨demoCols, List.replicate MAX_USER_ID demoRow⟩ := rfl
  rw [hM]
  rw [zero_ratings_first20 demoCols (List.replicate MAX_USER_ID demoRow) demoMovies
    demoCols_length (by rw [List.length_replicate]) (by
      intro i hi
      rw [demoRows_getD i hi, demoRow_length, demoCols_length])]
  rw [List.map_congr_left (fun i hi =>
    demoRows_getD i (lt_of_lt_of_le (List.mem_range.mp hi) (by norm_num [MAX_USER_ID])))]
  rw [demo_aggregate, demo_resolve]

/-!  Lemmas: title resolution and aggregate shape. -/

theorem resolveTitles_ok (movies : List Movie) :
    ∀ (ids : List ℤ) (ts : List String), resolveTitles movies ids = Except.ok ts →
      ts.length = ids.length ∧
      ∀ t ∈ ts, ∃ id ∈ ids, ∃ m, movies.find? (fun m' => m'.movieId = id) = some m ∧
        m.title = t := by
  intro ids
  induction ids with
  | nil =>
    intro ts h
    cases h
    exact ⟨rfl, fun t ht => absurd ht (List.not_mem_nil t)⟩
  | cons id rest ih =>
    intro ts h
    unfold resolveTitles at h
    cases hf : movies.find? (fun m' => m'.movieId = id) with
    | none => rw [hf] at h; cases h
    | some m =>
      rw [hf] at h
      cases hrest : resolveTitles movies rest with
      | error e => rw [hrest] at h; cases h
      | ok ts' =>
        rw [hrest] at h
        cases h
        obtain ⟨hlen, hmem⟩ := ih ts' hrest
        constructor
        · rw [List.length_cons, List.length_cons, hlen]
        · intro t ht
          rcases List.mem_cons.mp ht with h1 | h1
          · exact ⟨id, List.mem_cons_self id rest, m, hf, h1.symm⟩
          · obtain ⟨id', hid', m', hm', hmt⟩ := hmem t h1
            exact ⟨id', List.mem_cons_of_mem id hid', m', hm', hmt⟩

theorem resolveTitles_nodup (movies : List Movie)
    (htitles : movies.Pairwise (fun a b => a.title ≠ b.title)) :
    ∀ (ids : List ℤ) (ts : List String), resolveTitles movies ids = Except.ok ts →
      ids.Nodup → ts.Nodup := by
  intro ids
  induction ids with
  | nil => intro ts h _; cases h; exact List.nodup_nil
  | cons id rest ih =>
    intro ts h hnd
    unfold resolveTitles at h
    cases hf : movies.find? (fun m' => m'.movieId = id) with
    | none => rw [hf] at h; cases h
    | some m =>
      rw [hf] at h
      cases hrest : resolveTitles movies rest with
      | error e => rw [hrest] at h; cases h
      | ok ts' =>
        rw [hrest] at h
        cases h
        rw [List.nodup_cons] at hnd ⊢
        refine ⟨?_, ih ts' hrest hnd.2⟩
        intro hmem
        obtain ⟨_, hmemrest⟩ := resolveTitles_ok movies rest ts' hrest
        obtain ⟨id', hid', m', hm', hmt⟩ := hmemrest m.title hmem
        have hmmem : m ∈ movies := List.mem_of_find?_eq_some hf
        have hmmem' : m' ∈ movies := List.mem_of_find?_eq_some hm'
        have hid : m.movieId = id := by simpa using List.find?_some hf
        have hid2 : m'.movieId = id' := by simpa using List.find?_some hm'
        have hne : m ≠ m' := by
          intro heq
        -- m = m' forces id = id', contradicting id ∉ rest
          apply hnd.1
          rw [← hid, heq, hid2]
          exact hid'
        exact (List.Pairwise.forall (fun a b hne' => (hne' ·.symm)) htitles
          hmmem hmmem' hne) hmt.symm

theorem aggregate_length_le (cols : List ℤ) (rows : List (List ℚ)) :
    (aggregate cols rows).length ≤ 10 := by
  rw [aggregate]
  exact List.length_take_le 10 _

theorem aggregate_nodup (cols : List ℤ) (rows : List (List ℚ)) (h : cols.Nodup) :
    (aggregate cols rows).Nodup := by
  have hkept : (keptCols cols rows).Nodup :=
    (List.nodup_range cols.length).filter _
  have hmeans : (((keptCols cols rows).map
      (fun j => (cols.getD j 0, colMean rows j))).map (fun p => p.1)).Nodup := by
    rw [List.map_map]
    refine List.Nodup.map_on ?_ hkept
    intro x hx y hy hxy
    obtain ⟨hxl, _⟩ := mem_keptCols cols rows x hx
    obtain ⟨hyl, _⟩ := mem_keptCols cols rows y hy
    simp only [Function.comp_apply] at hxy
    rw [List.getD_eq_getElem _ _ hxl, List.getD_eq_getElem _ _ hyl] at hxy
    exact (List.Nodup.getElem_inj_iff h).mp hxy
  have hperm : ((rankedCols cols rows).map (fun p => p.1)).Perm
      (((keptCols cols rows).map
        (fun j => (cols.getD j 0, colMean rows j))).map (fun p => p.1)) :=
    (sortDescBy_perm _ _).map _
  rw [aggregate]
  exact (List.take_sublist _ _).nodup (hperm.symm.nodup hmeans)

theorem recommend_movies_ok_elim (ur : List (String × ℚ)) (u : UtilMatrix)
    (movies : List Movie) (ts : List String)
    (h : recommend_movies ur u movies = Except.ok ts) :
    ∃ neighborRows, resolveTitles movies (aggregate u.columns neighborRows) =
      Except.ok ts := by
  unfold recommend_movies at h
  by_cases h1 : u.columns.length ≠ MAX_MOVIE_ID
  · rw [if_pos h1] at h; cases h
  · rw [if_neg h1] at h
    cases hbq : buildQueryRow movies ur (ur.map (fun e => e.1))
        (u.columns.map (fun c => (c, 0))) with
    | error e => rw [hbq] at h; cases h
    | ok row =>
      rw [hbq] at h
      simp only [] at h
      by_cases h2 : u.rows.length < MAX_USER_ID
      · rw [if_pos h2] at h; cases h
      · rw [if_neg h2] at h
        by_cases h3 : (List.range MAX_USER_ID).any
            (fun i => decide ((u.rows.getD i []).length ≠ row.length)) = true
        · rw [if_pos h3] at h; cases h
        · rw [if_neg h3] at h
          exact ⟨_, h⟩

/-- Claim C1: whenever `recommend_movies` returns a list of titles (over a
utility matrix with distinct column labels and a catalog with unique titles,
per the data model), that list has at most 10 entries and no duplicates. -/
theorem C1_recommend_short_distinct (ur : List (String × ℚ)) (u : UtilMatrix)
    (movies : List Movie) (ts : List String)
    (hok : recommend_movies ur u movies = Except.ok ts)
    (hcols : u.columns.Nodup)
    (htitles : movies.Pairwise (fun a b => a.title ≠ b.title)) :
    ts.length ≤ 10 ∧ ts.Nodup := by
  obtain ⟨rowsN, hres⟩ := recommend_movies_ok_elim ur u movies ts hok
  obtain ⟨hlen, _⟩ := resolveTitles_ok movies _ ts hres
  constructor
  · rw [hlen]
    exact aggregate_length_le u.columns rowsN
  · exact resolveTitles_nodup movies htitles _ ts hres
      (aggregate_nodup u.columns rowsN hcols)

theorem demoCols_nodup : demoCols.Nodup := by
  rw [demoCols]
  exact List.Nodup.map (fun a b h => Int.ofNat.inj h) (List.nodup_range MAX_MOVIE_ID)

theorem demoMatrix_columns_nodup : demoMatrix.columns.Nodup := by
  rw [show demoMatrix = (⟨demoCols, List.replicate MAX_USER_ID demoRow⟩ : UtilMatrix)
    from rfl]
  dsimp only
  exact demoCols_nodup

/-- Witness for C1: on the full-size demo matrix with zero user ratings the
function returns ["A", "B"], which has at most 10 entries and no duplicates. -/
theorem C1_recommend_short_distinct_witness :
    recommend_movies [] demoMatrix demoMovies = Except.ok ["A", "B"] ∧
    (["A", "B"] : List String).length ≤ 10 ∧ (["A", "B"] : List String).Nodup :=
  ⟨demo_eval, C1_recommend_short_distinct [] demoMatrix demoMovies ["A", "B"]
    demo_eval demoMatrix_columns_nodup (by decide)⟩

/-- Claim C2, counterexample: a user with zero rating entries does not get an
empty sequence: on the demo matrix the code returns the two titles "A", "B"
(ranked from the first 20 rows, whose similarity scores are all NaN). -/
theorem C2_zero_ratings_cex :
    recommend_movies [] demoMatrix demoMovies = Except.ok ["A", "B"] ∧
    (["A", "B"] : List String) ≠ [] :=
  ⟨demo_eval, by simp⟩

/-- Claim C2 (amended): for a user with zero rating entries and a utility
matrix of the shape the code hard-codes, `recommend_movies` raises no
exception but does not return an empty sequence by construction: every
similarity is NaN, the NaN-keyed sort keeps the original row order, so the
neighbors are simply the first 20 rows and the output is whatever the
aggregator recommends from them. -/
theorem C2_zero_ratings_first20_amended (cols : List ℤ) (rows : List (List ℚ))
    (movies : List Movie)
    (hc : cols.length = MAX_MOVIE_ID) (hr : MAX_USER_ID ≤ rows.length)
    (hrow : ∀ i < MAX_USER_ID, (rows.getD i []).length = cols.length) :
    recommend_movies [] ⟨cols, rows⟩ movies =
      resolveTitles movies (aggregate cols
        ((List.range 20).map (fun i => rows.getD i []))) :=
  zero_ratings_first20 cols rows movies hc hr hrow

/-- Witness for C2's amended theorem at the demo matrix: the shape hypotheses
hold and the zero-ratings run equals the aggregation over the first 20 rows. -/
theorem C2_zero_ratings_first20_witness :
    demoCols.length = MAX_MOVIE_ID ∧
    MAX_USER_ID ≤ (List.replicate MAX_USER_ID demoRow).length ∧
    recommend_movies [] ⟨demoCols, List.replicate MAX_USER_ID demoRow⟩ demoMovies =
      resolveTitles demoMovies (aggregate demoCols
        ((List.range 20).map (fun i =>
          (List.replicate MAX_USER_ID demoRow).getD i []))) :=
  ⟨demoCols_length, by rw [List.length_replicate],
   C2_zero_ratings_first20_amended demoCols (List.replicate MAX_USER_ID demoRow) demoMovies
     demoCols_length (by rw [List.length_replicate])
     (fun i hi => by rw [demoRows_getD i hi, demoRow_length, demoCols_length])⟩

/-- Witness for C10 at a one-row stored table. -/
theorem C10_load_user_ratings_total_witness :
    load_user_ratings (some [("A", (5:ℚ))]) = [("A", (5:ℚ))] ∧
    load_user_ratings none = [] ∧
    centerRatings [] = [] :=
  C10_load_user_ratings_total [("A", (5:ℚ))]

/-- Witness for C6 on the two-score assignment [(1, 4), (-1, 4)]: the
positivity hypothesis holds and the selector returns min(20, 2) = 2 indices. -/
theorem C6_neighbor_selection_witness :
    (∀ s ∈ [((1:ℚ), (4:ℚ)), (-1, 4)], 0 < s.2) ∧
    (((sortDescBy scoreLt ((List.range [((1:ℚ), (4:ℚ)), (-1, 4)].length).map
        (fun i => (i, some ([((1:ℚ), (4:ℚ)), (-1, 4)].getD i (0, 1)))))).take 20).map
          (fun p => p.1)).length = min 20 [((1:ℚ), (4:ℚ)), (-1, 4)].length :=
  ⟨by decide, (C6_neighbor_selection [((1:ℚ), (4:ℚ)), (-1, 4)] (by decide)).1⟩
